import Mathlib

/-!
Verification development for the mechanical-rigging engine
(`mechanical_rigger/utils.py`, `mechanical_rigger/operators.py`).

The Python source is shallowly embedded below: pure computations become
Lean functions over `String`, `List`, `ℚ`-vectors and `ℚ`-matrices;
Blender state (armatures, pose bones, constraints) becomes explicit
record types threaded through the passes; fallible entry points return
`Except`.  All numeric code is modelled over exact rationals; the two
places where the source computes a Euclidean norm (`vec.length < 0.001`
and `normalized() * (length * 0.5)`) are embedded by the exact algebraic
equivalents noted at each definition.
-/

namespace MechRig

/-! ## String primitives

The source relies on Python's `in`, `str.replace`, `str.startswith`,
`str.endswith`.  They are embedded over `List Char` so that every
definition is structurally recursive and kernel-evaluable. -/

/-- Model of Python `s.startswith(pat)` over character lists. -/
def startsWithL : List Char → List Char → Bool
  | _, [] => true
  | [], _ :: _ => false
  | c :: s, p :: ps => c = p && startsWithL s ps

/-- Model of Python `pat in s` (substring containment). -/
def containsL : List Char → List Char → Bool
  | [], pat => pat.isEmpty
  | c :: rest, pat => startsWithL (c :: rest) pat || containsL rest pat

/-- Fuelled worker for `str.replace`: replaces every occurrence of `pat`
(nonempty in all uses: the source only replaces `"_Mirrored"`),
scanning left to right as Python does.  The fuel is the length of the
scanned string, which suffices because every step consumes at least one
character. -/
def replFuel (pat rep : List Char) : ℕ → List Char → List Char
  | 0, s => s
  | fuel + 1, s =>
    if !pat.isEmpty && startsWithL s pat then
      rep ++ replFuel pat rep fuel (s.drop pat.length)
    else
      match s with
      | [] => []
      | c :: rest => c :: replFuel pat rep fuel rest

/-- Model of Python `s.replace(pat, rep)`. -/
def sReplace (s pat rep : String) : String :=
  ⟨replFuel pat.data rep.data s.data.length s.data⟩

/-- Model of Python `pat in s`. -/
def sContains (s pat : String) : Bool := containsL s.data pat.data

/-- Model of Python `s.startswith(pat)`. -/
def sStarts (s pat : String) : Bool := startsWithL s.data pat.data

/-- Model of Python `s.endswith(pat)`. -/
def sEnds (s pat : String) : Bool := startsWithL s.data.reverse pat.data.reverse

/-! ## Rational vectors and matrices

`mathutils.Vector` / `mathutils.Matrix` are embedded as explicit record
types over `ℚ` so that all operations compute by `decide`/`rfl`. -/

/-- A 3-component vector (model of `mathutils.Vector`). -/
@[ext] structure Vec3 where
  x : ℚ
  y : ℚ
  z : ℚ
deriving DecidableEq, Repr

instance : Add Vec3 := ⟨fun a b => ⟨a.x + b.x, a.y + b.y, a.z + b.z⟩⟩

instance : Sub Vec3 := ⟨fun a b => ⟨a.x - b.x, a.y - b.y, a.z - b.z⟩⟩

instance : SMul ℚ Vec3 := ⟨fun q v => ⟨q * v.x, q * v.y, q * v.z⟩⟩

/-- Squared Euclidean norm.  The source compares `vec.length < eps`;
since both sides are nonnegative this is equivalent to
`sqNorm vec < eps^2`, which is how the comparison is embedded. -/
def sqNorm (v : Vec3) : ℚ := v.x * v.x + v.y * v.y + v.z * v.z

/-- Negation of the local X component: model of the in-place
`v.x *= -1` used by the mirroring code. -/
def negX (v : Vec3) : Vec3 := ⟨-v.x, v.y, v.z⟩

/-- A 3×3 matrix (model of `Matrix.to_3x3()` results). -/
@[ext] structure Mat3 where
  a00 : ℚ
  a01 : ℚ
  a02 : ℚ
  a10 : ℚ
  a11 : ℚ
  a12 : ℚ
  a20 : ℚ
  a21 : ℚ
  a22 : ℚ
deriving DecidableEq, Repr

/-- Matrix–matrix product on `Mat3` (model of `@`). -/
def mul3 (A B : Mat3) : Mat3 :=
  ⟨A.a00 * B.a00 + A.a01 * B.a10 + A.a02 * B.a20,
   A.a00 * B.a01 + A.a01 * B.a11 + A.a02 * B.a21,
   A.a00 * B.a02 + A.a01 * B.a12 + A.a02 * B.a22,
   A.a10 * B.a00 + A.a11 * B.a10 + A.a12 * B.a20,
   A.a10 * B.a01 + A.a11 * B.a11 + A.a12 * B.a21,
   A.a10 * B.a02 + A.a11 * B.a12 + A.a12 * B.a22,
   A.a20 * B.a00 + A.a21 * B.a10 + A.a22 * B.a20,
   A.a20 * B.a01 + A.a21 * B.a11 + A.a22 * B.a21,
   A.a20 * B.a02 + A.a21 * B.a12 + A.a22 * B.a22⟩

/-- Identity 3×3 matrix. -/
def id3 : Mat3 := ⟨1, 0, 0, 0, 1, 0, 0, 0, 1⟩

/-- Matrix–vector product on `Mat3` (model of `@` on a vector). -/
def mulVec3 (A : Mat3) (v : Vec3) : Vec3 :=
  ⟨A.a00 * v.x + A.a01 * v.y + A.a02 * v.z,
   A.a10 * v.x + A.a11 * v.y + A.a12 * v.z,
   A.a20 * v.x + A.a21 * v.y + A.a22 * v.z⟩

/-- A 4×4 matrix (model of `mathutils.Matrix`, object world matrices). -/
@[ext] structure Mat4 where
  b00 : ℚ
  b01 : ℚ
  b02 : ℚ
  b03 : ℚ
  b10 : ℚ
  b11 : ℚ
  b12 : ℚ
  b13 : ℚ
  b20 : ℚ
  b21 : ℚ
  b22 : ℚ
  b23 : ℚ
  b30 : ℚ
  b31 : ℚ
  b32 : ℚ
  b33 : ℚ
deriving DecidableEq, Repr

/-- Matrix–matrix product on `Mat4` (model of `@`). -/
def mul4 (A B : Mat4) : Mat4 :=
  ⟨A.b00 * B.b00 + A.b01 * B.b10 + A.b02 * B.b20 + A.b03 * B.b30,
   A.b00 * B.b01 + A.b01 * B.b11 + A.b02 * B.b21 + A.b03 * B.b31,
   A.b00 * B.b02 + A.b01 * B.b12 + A.b02 * B.b22 + A.b03 * B.b32,
   A.b00 * B.b03 + A.b01 * B.b13 + A.b02 * B.b23 + A.b03 * B.b33,
   A.b10 * B.b00 + A.b11 * B.b10 + A.b12 * B.b20 + A.b13 * B.b30,
   A.b10 * B.b01 + A.b11 * B.b11 + A.b12 * B.b21 + A.b13 * B.b31,
   A.b10 * B.b02 + A.b11 * B.b12 + A.b12 * B.b22 + A.b13 * B.b32,
   A.b10 * B.b03 + A.b11 * B.b13 + A.b12 * B.b23 + A.b13 * B.b33,
   A.b20 * B.b00 + A.b21 * B.b10 + A.b22 * B.b20 + A.b23 * B.b30,
   A.b20 * B.b01 + A.b21 * B.b11 + A.b22 * B.b21 + A.b23 * B.b31,
   A.b20 * B.b02 + A.b21 * B.b12 + A.b22 * B.b22 + A.b23 * B.b32,
   A.b20 * B.b03 + A.b21 * B.b13 + A.b22 * B.b23 + A.b23 * B.b33,
   A.b30 * B.b00 + A.b31 * B.b10 + A.b32 * B.b20 + A.b33 * B.b30,
   A.b30 * B.b01 + A.b31 * B.b11 + A.b32 * B.b21 + A.b33 * B.b31,
   A.b30 * B.b02 + A.b31 * B.b12 + A.b32 * B.b22 + A.b33 * B.b32,
   A.b30 * B.b03 + A.b31 * B.b13 + A.b32 * B.b23 + A.b33 * B.b33⟩

/-- Identity 4×4 matrix. -/
def id4 : Mat4 :=
  ⟨1, 0, 0, 0, 0, 1, 0, 0, 0, 0, 1, 0, 0, 0, 0, 1⟩

/-- Model of `mathutils.Matrix.Scale(-1, 4, (1, 0, 0))`: the scale by
`-1` along the X axis, i.e. `diag(-1, 1, 1, 1)`. -/
def scaleNegX4 : Mat4 :=
  ⟨-1, 0, 0, 0, 0, 1, 0, 0, 0, 0, 1, 0, 0, 0, 0, 1⟩

/-- Translation column of a 4×4 matrix (model of `.translation`). -/
def translation4 (M : Mat4) : Vec3 := ⟨M.b03, M.b13, M.b23⟩

/-! ## Scene model and the hierarchy analyzer (`analyze_hierarchy`)

A selected Blender object is embedded as its name, its list of
collection names (`obj.users_collection`, in order), and the name of
its parent object if any.  A selection is a `List SceneObj`; Blender
object names are unique, so parent links and child lookup go by name.
`obj.children` intersected with the selected set becomes
`childrenOf S o`. -/

/-- A selected scene object, as read by the analyzer. -/
structure SceneObj where
  name : String
  collections : List String
  parent : Option String
deriving DecidableEq, Repr

/-- The collection an object is classified by:
`obj.users_collection[0]` (the analyzer raises before this is ever
evaluated on an object with no collections, so the `""` default is
unreachable in `analyze_hierarchy`). -/
def colOfD (o : SceneObj) : String := o.collections.headD ""

/-- Children of `o` among the selected objects (`obj.children`
filtered by `child in selected_set`). -/
def childrenOf (S : List SceneObj) (o : SceneObj) : List SceneObj :=
  S.filter (fun c => c.parent = some o.name)

/-- Side tag of a `BoneNode` (`is_mirrored_side`: `None`/`'L'`/`'R'`). -/
inductive Side where
  | L
  | R
deriving DecidableEq, Repr

/-- A `BoneNode` produced by the analyzer.  `origin` is the name of the
representative object (`origin_obj`); `siblingR` models the
`sibling_r` reference as the sibling's bone name. -/
structure BTree where
  name : String
  origin : String
  side : Option Side
  siblingR : Option String
  children : List BTree
deriving Repr

/-- The contribution of traversing one subtree under a bone context:
`originOv` is the pending pivot-override (`origin_obj` replacement) if
any, `addL` the bone nodes to attach under the Left context node, and
`addR` those to attach under the Right context node. -/
structure Effect where
  originOv : Option String
  addL : List BTree
  addR : List BTree
deriving Repr

/-- The empty contribution. -/
def emptyEffect : Effect := ⟨none, [], []⟩

/-- Sequencing of sibling contributions: children lists concatenate in
traversal order, and a later pivot-override wins over an earlier one
(the source assigns `origin_obj` in traversal order, so the last
assignment stands). -/
def combineE (e1 e2 : Effect) : Effect :=
  ⟨e2.originOv.or e1.originOv, e1.addL ++ e2.addL, e1.addR ++ e2.addR⟩

/-- The `is_new_bone` decision: true when there is no parent context or
the node's collection differs from the context's collection.  (The
source compares against `obj_to_col[parent_node_l.origin_obj]`; a
pivot-override never changes the representative's collection, so the
context is carried as that collection name.) -/
def isNewAt (ctx : Option String) (c : String) : Bool :=
  match ctx with
  | none => true
  | some pc => decide (pc ≠ c)

/-- Construction of the Left/Right `BoneNode` pair for a mirrored
collection: names `<base>_L` / `<base>_R`, shared representative,
`sibling_r` link on the left node, and the accumulated child bones of
each side. -/
def mirrorPair (base orig : String) (e : Effect) : BTree × BTree :=
  (⟨base ++ "_L", orig, some Side.L, some (base ++ "_R"), e.addL⟩,
   ⟨base ++ "_R", orig, some Side.R, none, e.addR⟩)

/-- New-bone branch of `traverse`: builds the node (or mirrored pair)
for object `o` from the contribution `e` of its descendants and
packages it for the parent context.  When the parent context has no
Right node (`hasR = false`) the Right member attaches under the Left
parent — or becomes a forest root — exactly as in the source. -/
def buildNew (o : SceneObj) (hasR : Bool) (e : Effect) : Effect :=
  let c := colOfD o
  let base := sReplace c "_Mirrored" ""
  let orig := e.originOv.getD o.name
  if sContains c "_Mirrored" then
    let p := mirrorPair base orig e
    if hasR then ⟨none, [p.1], [p.2]⟩ else ⟨none, [p.1, p.2], []⟩
  else
    ⟨none, [⟨base, orig, none, none, e.addL⟩], []⟩

/-- Same-collection branch of `traverse`: the node folds into the
context bone; if its name starts with `"Hinge_"` it becomes a pending
representative override, which a later override from its descendants
may supersede. -/
def foldInto (o : SceneObj) (e : Effect) : Effect :=
  ⟨e.originOv.or (if sStarts o.name "Hinge_" then some o.name else none),
   e.addL, e.addR⟩

/-- The recursive `traverse(obj, parent_node_l, parent_node_r)` of
`analyze_hierarchy`.  `ctx` is the collection of the context bone
(`none` when there is no context), `hasR` whether a Right context node
exists.  The fuel bounds the recursion depth; `analyze_hierarchy`
supplies `S.length + 1`, which suffices because parent chains inside
the selection are acyclic and visit distinct objects. -/
def goObj (S : List SceneObj) : ℕ → SceneObj → Option String → Bool → Effect
  | 0, _, _, _ => emptyEffect
  | fuel + 1, o, ctx, hasR =>
    if isNewAt ctx (colOfD o) then
      buildNew o hasR
        (((childrenOf S o).map
            (fun ch => goObj S fuel ch (some (colOfD o))
              (sContains (colOfD o) "_Mirrored"))).foldl combineE emptyEffect)
    else
      foldInto o
        (((childrenOf S o).map
            (fun ch => goObj S fuel ch ctx hasR)).foldl combineE emptyEffect)

/-- Traversal of a list of sibling objects under one context. -/
def goForest (S : List SceneObj) (fuel : ℕ) (l : List SceneObj)
    (ctx : Option String) (hasR : Bool) : Effect :=
  (l.map (fun o => goObj S fuel o ctx hasR)).foldl combineE emptyEffect

/-- The full `analyze_hierarchy(selected_objects)`: first the
missing-collection check (in iteration order), then root detection
(`parent is None or parent not in selected_set`), the no-root error,
and finally the traversal from every root. -/
def analyze_hierarchy (S : List SceneObj) : Except String (List BTree) :=
  match S.find? (fun o => o.collections.isEmpty) with
  | some o =>
      .error ("Object \x27" ++ o.name ++ "\x27 is not assigned to any Collection.")
  | none =>
      let names := S.map (fun o => o.name)
      let roots := S.filter (fun o =>
        match o.parent with
        | none => true
        | some p => ! names.contains p)
      if roots.isEmpty then
        .error "Circular dependency or no root object found."
      else
        .ok (goForest S (S.length + 1) roots none false).addL

/-! ## Piston-name parsing and `validate_selection`

The source matches collection/bone names against the regular
expression `Piston_(.+?)_(Cyl|Rod)` with `re.match` (anchored at the
start) or `re.search` (leftmost occurrence).  The lazy group `(.+?)`
takes the shortest nonempty id such that the remainder starts with
`_Cyl` or `_Rod`; nothing anchors the end, so any trailing text is the
suffix. -/

/-- Lazy split after the literal `Piston_`: returns
`(id, isCyl, suffix)` for the shortest nonempty id followed by `_Cyl`
or `_Rod`.  `acc` holds the id candidate reversed.  (On the empty rest
both literal checks fail, so the `[]` case is `none`, matching the
regex having no possible match.) -/
def pSplit : List Char → List Char → Option (List Char × Bool × List Char)
  | _, [] => none
  | acc, c :: rest =>
    if !acc.isEmpty && startsWithL (c :: rest) "_Cyl".data then
      some (acc.reverse, true, (c :: rest).drop 4)
    else if !acc.isEmpty && startsWithL (c :: rest) "_Rod".data then
      some (acc.reverse, false, (c :: rest).drop 4)
    else
      pSplit (c :: acc) rest

/-- Model of `re.match(r"Piston_(.+?)_(Cyl|Rod)", s)`: anchored at the
start of `s`. -/
def pistonMatch (s : String) : Option (String × Bool × String) :=
  if startsWithL s.data "Piston_".data then
    (pSplit [] (s.data.drop 7)).map (fun r => (⟨r.1⟩, r.2.1, ⟨r.2.2⟩))
  else none

/-- Model of `re.search(r"Piston_(.+?)_(Cyl|Rod)", s)`: the match at
the leftmost starting position. -/
def pistonSearch : List Char → Option (String × Bool × String)
  | [] => none
  | c :: rest =>
    match
      (if startsWithL (c :: rest) "Piston_".data then
        pSplit [] ((c :: rest).drop 7)
      else none) with
    | some r => some (⟨r.1⟩, r.2.1, ⟨r.2.2⟩)
    | none => pistonSearch rest

/-- One entry of the `pistons` dict of `validate_selection`:
piston id together with which member types were seen
(`hasCyl`, `hasRod`). -/
structure PistonEntry where
  pid : String
  hasCyl : Bool
  hasRod : Bool
deriving DecidableEq, Repr

/-- Insertion-ordered dict update `pistons[pid].add(ptype)`. -/
def updatePist : List PistonEntry → String → Bool → List PistonEntry
  | [], pid, isCyl => [⟨pid, isCyl, !isCyl⟩]
  | e :: rest, pid, isCyl =>
    if e.pid = pid then
      ⟨e.pid, e.hasCyl || isCyl, e.hasRod || !isCyl⟩ :: rest
    else
      e :: updatePist rest pid isCyl

/-- The piston-scanning loop of `validate_selection`: objects without a
collection are skipped, each collection (by `users_collection[0]`) is
scanned once, its name is stripped of `_Mirrored` and matched against
the piston pattern. -/
def scanPistons : List SceneObj → List String → List PistonEntry → List PistonEntry
  | [], _, pist => pist
  | o :: rest, scanned, pist =>
    match o.collections.head? with
    | none => scanPistons rest scanned pist
    | some col =>
      if scanned.contains col then
        scanPistons rest scanned pist
      else
        match pistonMatch (sReplace col "_Mirrored" "") with
        | none => scanPistons rest (col :: scanned) pist
        | some r => scanPistons rest (col :: scanned) (updatePist pist r.1 r.2.1)

/-- The incomplete-pair error for a piston that has `Cyl` but no
`Rod`. -/
def msgMissingRod (pid : String) : String :=
  "Piston \x27" ++ pid ++ "\x27 has Cyl but missing Rod (Piston_" ++ pid ++ "_Rod)."

/-- The incomplete-pair error for a piston that has `Rod` but no
`Cyl`. -/
def msgMissingCyl (pid : String) : String :=
  "Piston \x27" ++ pid ++ "\x27 has Rod but missing Cyl (Piston_" ++ pid ++ "_Cyl)."

/-- The incomplete-pair reporting loop over the `pistons` dict. -/
def pistonErrors : List PistonEntry → List String
  | [] => []
  | e :: rest =>
    ((if e.hasCyl && !e.hasRod then [msgMissingRod e.pid] else []) ++
     (if e.hasRod && !e.hasCyl then [msgMissingCyl e.pid] else [])) ++
    pistonErrors rest

/-- Whether any selected object sits in a collection whose name
carries the `_Mirrored` marker (this check walks every collection of
every object). -/
def usesMirrored (S : List SceneObj) : Bool :=
  S.any (fun o => o.collections.any (fun c => sContains c "_Mirrored"))

/-- The full `validate_selection`: empty-selection error, the
mirroring-prerequisite error, then the incomplete piston pairs, in
source order.  `hasOrigin` models whether
`context.scene.mech_rig_symmetric_origin` is set. -/
def validate_selection (S : List SceneObj) (hasOrigin : Bool) : List String :=
  if S.isEmpty then ["No objects selected."]
  else
    (if usesMirrored S && !hasOrigin then
      ["\x27_Mirrored\x27 collection used but no \x27Symmetric Origin\x27 set in panel."]
    else []) ++
    pistonErrors (scanPistons S [] [])

/-- Outcome of `MECH_RIG_OT_AutoRig.execute` up to the validation
gate. -/
inductive RigOutcome where
  | cancelledNoSelection
  | cancelledValidation
  | proceeded
deriving DecidableEq, Repr

/-- The validation gate of `MECH_RIG_OT_AutoRig.execute` (operators.py
lines 35–45): no selection cancels, a non-empty error list from
`validate_selection` cancels, otherwise the operator proceeds into the
synthesis block. -/
def autoRigGate (S : List SceneObj) (hasOrigin : Bool) : RigOutcome :=
  if S.isEmpty then .cancelledNoSelection
  else if validate_selection S hasOrigin ≠ [] then .cancelledValidation
  else .proceeded

/-! ## `create_armature`: mirror math and bone placement

`get_mirrored_matrix(obj_matrix, origin_matrix)` computes
`origin @ Scale(-1,4,X) @ origin.inverted() @ obj_matrix`.  The
embedding passes the inverse explicitly (`originInv`), with the
two-sided inverse property as a hypothesis where needed, since
`mathutils` guarantees exactly that for `.inverted()`. -/

/-- Model of `get_mirrored_matrix` (utils.py lines 687–691), with the
origin's inverse passed explicitly. -/
def get_mirrored_matrix (origin originInv M : Mat4) : Mat4 :=
  mul4 origin (mul4 scaleNegX4 (mul4 originInv M))

/-- Model of the axis-vector mirroring used for tails and roll axes
(utils.py lines 727–733): express the axis in the origin's local 3×3
frame, negate its X component, re-express in world space.  `O` is the
origin's world 3×3 and `Oinv` the 3×3 of the origin's inverse (these
agree with `(O)⁻¹` for the affine matrices Blender produces). -/
def mirrorAxis (O Oinv : Mat3) (v : Vec3) : Vec3 :=
  mulVec3 O (negX (mulVec3 Oinv v))

/-- The default bone length
`max(obj.dimensions.length * 0.5, 0.2) * scale`
(with the dimensions norm passed in as `dimLen`). -/
def bone_length (dimLen scale : ℚ) : ℚ :=
  max (dimLen * (1 / 2)) (1 / 5) * scale

/-- The piston branch of the operative `create_bones_recursive`
(utils.py lines 826–861), reduced to the tail computation: given the
bone's computed head, the counterpart's computed head when the
`piston_map` lookup for the opposite member type under the same
`(id, side)` key succeeds, and the representative's normalized local Z
axis.  `none` as the result models the source leaving `bone.head` /
`bone.tail` unassigned (which happens when the counterpart is
missing).  The source test is `vec.length < 0.001`; as `vec.length ≥ 0`
that is equivalent to the exact test `sqNorm vec < 1/1000000` used
here. -/
def piston_tail (finalHead : Vec3) (targetHead : Option Vec3) (zAxis : Vec3)
    (dimLen scale : ℚ) : Option Vec3 :=
  match targetHead with
  | none => none
  | some th =>
    let vec := th - finalHead
    let vec2 :=
      if sqNorm vec < 1 / 1000000 then bone_length dimLen scale • zAxis else vec
    some (finalHead + vec2)

/-! ## `create_bones_recursive`: shadowed vs operative definition

`create_armature` contains two successive definitions of
`create_bones_recursive`.  The first (lines 706–711) reuses an edit
bone when `node.name in amt.edit_bones`; the second (lines 795–797)
replaces it before the call site and always calls
`amt.edit_bones.new(node.name)`.  Blender's `edit_bones.new` never
overwrites: a name collision yields a renamed bone (`<name>.001`,
`<name>.002`, …).  Both traversals are embedded below as functions
from the bone forest and the pre-existing edit-bone name list to the
final name list; fuel bounds the tree depth. -/

/-- Blender's numeric rename suffix (modelled for counters below 10,
which covers every evaluation in this development). -/
def numSuffix (k : ℕ) : String := ".00" ++ toString k

/-- First free candidate among `base`, `base.001`, `base.002`, … -/
def freshFrom (existing : List String) (base : String) : ℕ → ℕ → String
  | 0, k => base ++ numSuffix k
  | cap + 1, k =>
    let cand := base ++ numSuffix k
    if existing.contains cand then freshFrom existing base cap (k + 1) else cand

/-- The name `amt.edit_bones.new(name)` actually assigns. -/
def freshName (existing : List String) (base : String) : String :=
  if existing.contains base then freshFrom existing base (existing.length + 1) 1
  else base

/-- The shadowed first `create_bones_recursive` (utils.py 706–711):
looks an existing bone up by name and reuses it, creating a new edit
bone only for unseen names.  Result: the armature's edit-bone name
list after the run. -/
def create_bones_v1 : ℕ → List BTree → List String → List String
  | 0, _, acc => acc
  | fuel + 1, ts, acc =>
    ts.foldl
      (fun ex t =>
        create_bones_v1 fuel t.children
          (if ex.contains t.name then ex else ex ++ [t.name]))
      acc

/-- The operative second `create_bones_recursive` (utils.py 795–797):
unconditionally calls `amt.edit_bones.new(node.name)`, so a name that
already exists produces an additional, auto-renamed bone. -/
def create_bones_v2 : ℕ → List BTree → List String → List String
  | 0, _, acc => acc
  | fuel + 1, ts, acc =>
    ts.foldl
      (fun ex t => create_bones_v2 fuel t.children (ex ++ [freshName ex t.name]))
      acc

/-! ## `apply_controls`: armature state model

The parts of Blender pose/edit state that `apply_controls` reads and
writes are embedded as one record per bone.  Visual-only state
(custom shapes, colors, bone collections, widget objects) is not
consulted by any claim and is omitted.  The driver wired onto the new
IK constraint is represented by the `hasIkFkProp` flag on the target
bone (the `IK_FK` custom property it reads). -/

/-- The per-axis data of a `LIMIT_ROTATION` constraint. -/
structure LimitVals where
  useX : Bool
  minX : ℚ
  maxX : ℚ
  useY : Bool
  minY : ℚ
  maxY : ℚ
  useZ : Bool
  minZ : ℚ
  maxZ : ℚ
deriving DecidableEq, Repr

/-- A pose-bone constraint, as far as `apply_controls` inspects it. -/
inductive PConstraint where
  | ik (nm : String) (chainCount : ℕ)
  | limitRot (nm : String) (vals : LimitVals)
  | dampedTrack (nm : String) (subtarget : String)
deriving DecidableEq, Repr

/-- Name of a constraint. -/
def consNameOf : PConstraint → String
  | .ik nm _ => nm
  | .limitRot nm _ => nm
  | .dampedTrack nm _ => nm

/-- Whether a constraint has type `'IK'`. -/
def isIkCons : PConstraint → Bool
  | .ik _ _ => true
  | _ => false

/-- The pose-bone IK axis settings written by the lock-update pass
(`lock_ik_*`, `use_ik_limit_*`, `ik_min_*`, `ik_max_*`). -/
structure IkFlags where
  lockX : Bool
  useLimX : Bool
  ikMinX : ℚ
  ikMaxX : ℚ
  lockY : Bool
  useLimY : Bool
  ikMinY : ℚ
  ikMaxY : ℚ
  lockZ : Bool
  useLimZ : Bool
  ikMinZ : ℚ
  ikMaxZ : ℚ
deriving DecidableEq, Repr

/-- Default (all unlocked, no limits), as on a fresh pose bone. -/
def defaultIkFlags : IkFlags :=
  ⟨false, false, 0, 0, false, false, 0, 0, false, false, 0, 0⟩

/-- A bone of the armature with the pose/edit state `apply_controls`
touches.  `useIk` and `ikChainLength` model
`pbone.mech_rig_settings.use_ik` / `.ik_chain_length`. -/
structure PBone where
  name : String
  parent : Option String
  head : Vec3
  tail : Vec3
  useIk : Bool
  ikChainLength : ℕ
  constraints : List PConstraint
  ik : IkFlags
  useDeform : Bool
  hasIkFkProp : Bool
deriving DecidableEq, Repr

/-- An armature: its bones in creation order. -/
abbrev Armature := List PBone

/-- Model of `armature.pose.bones.get(nm)` /
`nm in armature.data.bones` (bone names are unique in Blender). -/
def lookupBone (A : Armature) (nm : String) : Option PBone :=
  A.find? (fun b => b.name = nm)

/-- In-place update of the bone named `nm`. -/
def updateBone (A : Armature) (nm : String) (f : PBone → PBone) : Armature :=
  A.map (fun b => if b.name = nm then f b else b)

/-- Model of `apply_piston_constraints(armature, pbone)` (utils.py
1039–1121): returns the updated bone when the bone is processed as a
piston (pattern found and counterpart bone present), `none` otherwise.
The `Piston_Track` damped-track and the `Piston_Limit` rotation-limit
constraints are added only if absent. -/
def apply_piston_constraints (A : Armature) (b : PBone) : Option PBone :=
  if !sContains b.name "Piston_" then none
  else
    match pistonSearch b.name.data with
    | none => none
    | some r =>
      let targetName :=
        "Piston_" ++ r.1 ++ "_" ++ (if r.2.1 then "Rod" else "Cyl") ++ r.2.2
      match lookupBone A targetName with
      | none => none
      | some _ =>
        let b1 :=
          if b.constraints.any (fun c => consNameOf c = "Piston_Track") then b
          else { b with constraints :=
            b.constraints ++ [.dampedTrack "Piston_Track" targetName] }
        let b2 :=
          if b1.constraints.any (fun c => consNameOf c = "Piston_Limit") then b1
          else { b1 with constraints :=
            b1.constraints ++
              [.limitRot "Piston_Limit" ⟨true, 0, 0, true, 0, 0, false, 0, 0⟩] }
        some b2

/-- Model of the `for c in pbone.constraints: if c.type == 'IK':
c.chain_count = n; break` update: only the first IK constraint gets
the new chain count. -/
def setFirstChain : List PConstraint → ℕ → List PConstraint
  | [], _ => []
  | .ik cn _ :: rest, n => .ik cn n :: rest
  | c :: rest, n => c :: setFirstChain rest n

/-- One record of `update_ik_locks`: plain copied values, read in the
analysis pass. -/
structure LockRec where
  bone : String
  vals : LimitVals
deriving DecidableEq, Repr

/-- The chain walk of pass 1 (utils.py 1251–1273): `chain_length`
iterations starting at the owner, each appending one record per
`LIMIT_ROTATION` constraint on the current bone, stepping to the
parent until none remains. -/
def collectChainLocks (A : Armature) : ℕ → String → List LockRec
  | 0, _ => []
  | k + 1, nm =>
    match lookupBone A nm with
    | none => []
    | some b =>
      (b.constraints.filterMap (fun c =>
        match c with
        | .limitRot _ v => some ⟨nm, v⟩
        | _ => none)) ++
      (match b.parent with
       | some p => collectChainLocks A k p
       | none => [])

/-- An entry of `ik_tasks`. -/
structure IkTask where
  owner : String
  target : String
  chainLen : ℕ
deriving DecidableEq, Repr

/-- The mutable state of pass 1. -/
structure P1State where
  arm : Armature
  tasks : List IkTask
  cleanupBones : List String
  cleanupCons : List (String × String)
  locks : List LockRec
deriving Repr

/-- One iteration of the pass-1 loop (utils.py 1150–1286) for the bone
named `nm`: skip `_IK` helpers, process pistons (and skip their IK
logic), otherwise either update/queue IK work and collect lock records
from the current armature state, or queue cleanup of a withdrawn IK
setup. -/
def pass1Step (st : P1State) (nm : String) : P1State :=
  match lookupBone st.arm nm with
  | none => st
  | some b =>
    if sEnds nm "_IK" then st
    else
      match apply_piston_constraints st.arm b with
      | some b2 => { st with arm := updateBone st.arm nm (fun _ => b2) }
      | none =>
        if b.useIk then
          let hasIk := b.constraints.any isIkCons
          let arm2 :=
            if hasIk then
              updateBone st.arm nm (fun bb =>
                { bb with constraints := setFirstChain bb.constraints b.ikChainLength })
            else st.arm
          let tasks2 :=
            if hasIk then st.tasks
            else st.tasks ++ [⟨nm, nm ++ "_IK", b.ikChainLength⟩]
          { arm := arm2, tasks := tasks2,
            cleanupBones := st.cleanupBones, cleanupCons := st.cleanupCons,
            locks := st.locks ++ collectChainLocks arm2 b.ikChainLength nm }
        else
          { st with
            cleanupCons := st.cleanupCons ++
              b.constraints.filterMap (fun c =>
                match c with
                | .ik cn _ => some (nm, cn)
                | _ => none),
            cleanupBones :=
              if (lookupBone st.arm (nm ++ "_IK")).isSome then
                st.cleanupBones ++ [nm ++ "_IK"]
              else st.cleanupBones }

/-- Pass 1 (pose-mode analysis): iterate the bones in armature order. -/
def apply_controls_pass1 (A : Armature) : P1State :=
  (A.map (fun b => b.name)).foldl pass1Step ⟨A, [], [], [], []⟩

/-- The single bone created per IK task in edit mode (utils.py
1310–1324): head at the owner's tail, tail extended along the owner's
direction by half the owner's length, parented to the owner's parent,
non-deforming.  The source computes the extension as
`(tail - head).normalized() * (bone.length * 0.5)`; since
`bone.length = |tail - head|` this equals `(tail - head) / 2` exactly
(also when `tail = head`, where `normalized()` yields the zero
vector), which is the form used here. -/
def mkIkBone (nm : String) (ob : PBone) : PBone :=
  { name := nm, parent := ob.parent, head := ob.tail,
    tail := ob.tail + ((1 : ℚ) / 2) • (ob.tail - ob.head),
    useIk := false, ikChainLength := 2, constraints := [],
    ik := defaultIkFlags, useDeform := false, hasIkFkProp := false }

/-- Pass 2 (edit mode, utils.py 1293–1324): remove the queued `_IK`
bones, then for each task create the IK target bone if the owner
exists and the target does not. -/
def apply_controls_pass2 (A : Armature) (cleanupBones : List String)
    (tasks : List IkTask) : Armature :=
  let A1 := A.filter (fun b => !cleanupBones.contains b.name)
  tasks.foldl
    (fun acc t =>
      match lookupBone acc t.owner with
      | none => acc
      | some ob =>
        match lookupBone acc t.target with
        | some _ => acc
        | none => acc ++ [mkIkBone t.target ob])
    A1

/-- One axis block of the lock-update code (utils.py 1406–1416 for X,
and identically for Y and Z): given the stored `use_limit`/min/max of
that axis and the bone's current `(lock, useLim, ikMin, ikMax)` for the
axis, produce the updated quadruple.  A used limit whose range
collapses below `0.001` sets only the hard lock; a used limit with a
wider range sets the soft limit with the stored min/max; an unused
limit clears both flags. -/
def applyLockAxis (use : Bool) (mn mx : ℚ) (lock useLim : Bool)
    (mnOld mxOld : ℚ) : Bool × Bool × ℚ × ℚ :=
  if use then
    if |mx - mn| < 1 / 1000 then (true, useLim, mnOld, mxOld)
    else (lock, true, mn, mx)
  else (false, false, mnOld, mxOld)

/-- The per-record lock application of pass 3 (utils.py 1401–1440):
the three independent axis blocks applied to the bone's IK flags. -/
def applyLockRec (v : LimitVals) (f : IkFlags) : IkFlags :=
  let X := applyLockAxis v.useX v.minX v.maxX f.lockX f.useLimX f.ikMinX f.ikMaxX
  let Y := applyLockAxis v.useY v.minY v.maxY f.lockY f.useLimY f.ikMinY f.ikMaxY
  let Z := applyLockAxis v.useZ v.minZ v.maxZ f.lockZ f.useLimZ f.ikMinZ f.ikMaxZ
  ⟨X.1, X.2.1, X.2.2.1, X.2.2.2,
   Y.1, Y.2.1, Y.2.2.1, Y.2.2.2,
   Z.1, Z.2.1, Z.2.2.1, Z.2.2.2⟩

/-- The lock-update loop of pass 3 (utils.py 1398–1440), applying the
copied records to the re-acquired pose bones. -/
def applyIkLocks (A : Armature) (locks : List LockRec) : Armature :=
  locks.foldl
    (fun acc r => updateBone acc r.bone (fun b => { b with ik := applyLockRec r.vals b.ik }))
    A

/-- Pass 3 (pose mode, utils.py 1330–1440): remove the queued IK
constraints, add the new IK constraint (`chain_count` exactly as
requested) and the `IK_FK` property/driver target per task, then apply
the lock records. -/
def apply_controls_pass3 (A : Armature) (cleanupCons : List (String × String))
    (tasks : List IkTask) (locks : List LockRec) : Armature :=
  let A1 := cleanupCons.foldl
    (fun acc pr => updateBone acc pr.1 (fun b =>
      { b with constraints :=
        b.constraints.filter (fun c => !(isIkCons c && consNameOf c = pr.2)) }))
    A
  let A2 := tasks.foldl
    (fun acc t =>
      if (lookupBone acc t.owner).isSome && (lookupBone acc t.target).isSome then
        updateBone
          (updateBone acc t.owner (fun b =>
            { b with constraints := b.constraints ++ [.ik "IK" t.chainLen] }))
          t.target (fun b => { b with hasIkFkProp := true })
      else acc)
    A1
  applyIkLocks A2 locks

/-- The full `apply_controls(context, armature)` pipeline: analysis in
pose mode, structural edits in edit mode, constraints/locks in pose
mode, with all cross-pass data carried in the plain-value `P1State`. -/
def apply_controls (A : Armature) : Armature :=
  let p1 := apply_controls_pass1 A
  apply_controls_pass3 (apply_controls_pass2 p1.arm p1.cleanupBones p1.tasks)
    p1.cleanupCons p1.tasks p1.locks

/-- Number of ancestor links available from a bone, counting the bone
itself (the "available depth" of an IK chain rooted there). -/
def availDepth (A : Armature) : ℕ → String → ℕ
  | 0, _ => 0
  | k + 1, nm =>
    match lookupBone A nm with
    | none => 0
    | some b =>
      1 + (match b.parent with
           | some p => availDepth A k p
           | none => 0)

/-- Lookup of a piston id in the scanned dict. -/
def lookupPist (l : List PistonEntry) (pid : String) : Option (Bool × Bool) :=
  (l.find? (fun e => e.pid = pid)).map (fun e => (e.hasCyl, e.hasRod))

/-- Truncation of an object's collection list to its first element. -/
def truncObj (o : SceneObj) : SceneObj :=
  { o with collections := o.collections.take 1 }

/-- Truncation of every object's collection list to its first
element. -/
def truncCols (S : List SceneObj) : List SceneObj := S.map truncObj

/-- Whether some object has an empty collection list. -/
def hasEmptyCol (S : List SceneObj) : Bool :=
  S.any (fun o => o.collections.isEmpty)

/-- Equality of tree shape: same number of children at every level,
recursively, ignoring names, sides and representatives. -/
inductive SameShape : BTree → BTree → Prop where
  | mk : ∀ {a b : BTree},
      List.Forall₂ SameShape a.children b.children → SameShape a b

/-- The condition under which a subtree's Left and Right bone images
coincide in shape: every descendant that starts a new bone (its
collection differs from the context) sits in a mirrored collection.
`c` is the collection of the enclosing bone context. -/
def okObjF (S : List SceneObj) : ℕ → SceneObj → String → Bool
  | 0, _, _ => true
  | F + 1, o, c =>
    if colOfD o = c then
      (childrenOf S o).all (fun ch => okObjF S F ch c)
    else
      sContains (colOfD o) "_Mirrored" &&
        (childrenOf S o).all (fun ch => okObjF S F ch (colOfD o))

/-- The Left/Right pair a mirrored object produces, together with the
traversal of its descendants. -/
def pairAt (S : List SceneObj) (F : ℕ) (o : SceneObj) : BTree × BTree :=
  mirrorPair (sReplace (colOfD o) "_Mirrored" "")
    ((goForest S F (childrenOf S o) (some (colOfD o)) true).originOv.getD o.name)
    (goForest S F (childrenOf S o) (some (colOfD o)) true)

/-- The last `Hinge_`-named entry of a list of object names — the
pivot override that is in force after visiting the list in order. -/
def lastHinge (l : List String) : Option String :=
  (l.filter (fun n => sStarts n "Hinge_")).getLast?

/-- The names of the objects folded into the bone context of
collection `c`, in depth-first visiting order, starting at `o`
(empty when `o` itself starts a new bone). -/
def regionNames (S : List SceneObj) : ℕ → SceneObj → String → List String
  | 0, _, _ => []
  | F + 1, o, c =>
    if colOfD o = c then
      o.name :: ((childrenOf S o).map (fun ch => regionNames S F ch c)).flatten
    else []

/-! ## Algebraic helper lemmas -/

/-- Unfolding equation for `goObj` at positive fuel. -/
theorem goObj_succ (S : List SceneObj) (fuel : ℕ) (o : SceneObj)
    (ctx : Option String) (hasR : Bool) :
    goObj S (fuel + 1) o ctx hasR =
      if isNewAt ctx (colOfD o) then
        buildNew o hasR
          (goForest S fuel (childrenOf S o) (some (colOfD o))
            (sContains (colOfD o) "_Mirrored"))
      else
        foldInto o (goForest S fuel (childrenOf S o) ctx hasR) := rfl



/-- Componentwise form of `Vec3` addition. -/
theorem vec3_add_def (a b : Vec3) : a + b = ⟨a.x + b.x, a.y + b.y, a.z + b.z⟩ := rfl

/-- Componentwise form of `Vec3` subtraction. -/
theorem vec3_sub_def (a b : Vec3) : a - b = ⟨a.x - b.x, a.y - b.y, a.z - b.z⟩ := rfl

/-- Componentwise form of `Vec3` scalar multiplication. -/
theorem vec3_smul_def (q : ℚ) (v : Vec3) : q • v = ⟨q * v.x, q * v.y, q * v.z⟩ := rfl

/-- Matrix–vector products compose through the matrix product. -/
theorem mulVec3_mulVec3 (A B : Mat3) (v : Vec3) :
    mulVec3 A (mulVec3 B v) = mulVec3 (mul3 A B) v := by
  ext <;> simp [mulVec3, mul3] <;> ring

/-- The identity matrix acts trivially on vectors. -/
theorem id3_mulVec (v : Vec3) : mulVec3 id3 v = v := by
  ext <;> simp [mulVec3, id3]

/-- Negating the X component twice is the identity. -/
theorem negX_negX (v : Vec3) : negX (negX v) = v := by
  ext <;> simp [negX]

/-- Associativity of the 4×4 matrix product. -/
theorem mul4_assoc (A B C : Mat4) : mul4 (mul4 A B) C = mul4 A (mul4 B C) := by
  ext <;> simp [mul4] <;> ring

/-- The identity matrix is a left unit for `mul4`. -/
theorem id4_mul4 (M : Mat4) : mul4 id4 M = M := by
  ext <;> simp [mul4, id4]

/-- The X-scale by `-1` is an involution as a matrix. -/
theorem scaleNegX4_sq : mul4 scaleNegX4 scaleNegX4 = id4 := by
  ext <;> norm_num [mul4, scaleNegX4, id4]

/-! ## Claim theorems -/

/-- C5: the reflection through the Reflection Origin — negate the
local-X component of a vector expressed in the origin's local frame,
then re-express it in world space — is an involution.  For every
origin whose matrix has a two-sided inverse (`mathutils.inverted()`),
applying `mirrorAxis` twice to any world-space vector returns the
vector, applying `get_mirrored_matrix` twice to any object matrix
returns the matrix, and in particular the doubly reflected head
translation is the original head.  Over exact rationals the identity
is exact; the source's floating-point version realises it within
tolerance. -/
theorem C5_reflection_involution (O3 O3inv : Mat3) (v : Vec3)
    (O4 O4inv M : Mat4)
    (h1 : mul3 O3 O3inv = id3) (h2 : mul3 O3inv O3 = id3)
    (h3 : mul4 O4 O4inv = id4) (h4 : mul4 O4inv O4 = id4) :
    mirrorAxis O3 O3inv (mirrorAxis O3 O3inv v) = v ∧
    get_mirrored_matrix O4 O4inv (get_mirrored_matrix O4 O4inv M) = M ∧
    translation4 (get_mirrored_matrix O4 O4inv (get_mirrored_matrix O4 O4inv M)) =
      translation4 M := by
  have hOinvO : ∀ X : Mat4, mul4 O4inv (mul4 O4 X) = X := by
    intro X
    rw [← mul4_assoc, h4, id4_mul4]
  have hOOinv : ∀ X : Mat4, mul4 O4 (mul4 O4inv X) = X := by
    intro X
    rw [← mul4_assoc, h3, id4_mul4]
  have hSS : ∀ X : Mat4, mul4 scaleNegX4 (mul4 scaleNegX4 X) = X := by
    intro X
    rw [← mul4_assoc, scaleNegX4_sq, id4_mul4]
  have hmat : get_mirrored_matrix O4 O4inv (get_mirrored_matrix O4 O4inv M) = M := by
    unfold get_mirrored_matrix
    rw [hOinvO, hSS, hOOinv]
  refine ⟨?_, hmat, by rw [hmat]⟩
  unfold mirrorAxis
  rw [mulVec3_mulVec3 O3inv O3, h2, id3_mulVec, negX_negX,
    mulVec3_mulVec3 O3 O3inv, h1, id3_mulVec]

/-- Witness for C5 at the identity origin and concrete vectors. -/
theorem C5_reflection_involution_witness :
    mul3 id3 id3 = id3 ∧ mul4 id4 id4 = id4 ∧
    (mirrorAxis id3 id3 (mirrorAxis id3 id3 ⟨1, 2, 3⟩) = ⟨1, 2, 3⟩ ∧
     get_mirrored_matrix id4 id4 (get_mirrored_matrix id4 id4 scaleNegX4) = scaleNegX4 ∧
     translation4 (get_mirrored_matrix id4 id4 (get_mirrored_matrix id4 id4 scaleNegX4)) =
       translation4 scaleNegX4) :=
  ⟨by ext <;> norm_num [mul3, id3], by ext <;> norm_num [mul4, id4],
   C5_reflection_involution id3 id3 ⟨1, 2, 3⟩ id4 id4 scaleNegX4
     (by ext <;> norm_num [mul3, id3]) (by ext <;> norm_num [mul3, id3])
     (by ext <;> norm_num [mul4, id4]) (by ext <;> norm_num [mul4, id4])⟩

/-- C2: for a piston member whose counterpart exists under the same
`(id, side)` key (`targetHead = some th`), the synthesized tail is
`head + (counterpart.head - head)`, i.e. exactly the counterpart's
head, whenever the two heads are at least the epsilon `0.001` apart
(`sqNorm ≥ 1/1000000` in squared form); when they are closer, the bone
instead gets the default axis-based tail `head + bone_length • zAxis`
rather than a zero-length bone. -/
theorem C2_piston_lookat (h th zAxis : Vec3) (dimLen scale : ℚ) :
    (¬ sqNorm (th - h) < 1 / 1000000 →
      piston_tail h (some th) zAxis dimLen scale = some th) ∧
    (sqNorm (th - h) < 1 / 1000000 →
      piston_tail h (some th) zAxis dimLen scale =
        some (h + bone_length dimLen scale • zAxis)) := by
  constructor
  · intro hfar
    simp only [piston_tail, if_neg hfar]
    congr 1
    ext <;> simp [vec3_add_def, vec3_sub_def]
  · intro hnear
    simp only [piston_tail, if_pos hnear]

/-- Witness for C2: a separated pair points at the counterpart; a
coincident pair falls back to the axis-based tail. -/
theorem C2_piston_lookat_witness :
    (¬ sqNorm ((⟨5, 0, 0⟩ : Vec3) - ⟨1, 0, 0⟩) < 1 / 1000000 ∧
      piston_tail ⟨1, 0, 0⟩ (some ⟨5, 0, 0⟩) ⟨0, 0, 1⟩ 2 1 = some ⟨5, 0, 0⟩) ∧
    (sqNorm ((⟨1, 0, 0⟩ : Vec3) - ⟨1, 0, 0⟩) < 1 / 1000000 ∧
      piston_tail ⟨1, 0, 0⟩ (some ⟨1, 0, 0⟩) ⟨0, 0, 1⟩ 2 1 =
        some ((⟨1, 0, 0⟩ : Vec3) + bone_length 2 1 • ⟨0, 0, 1⟩)) :=
  ⟨⟨by norm_num [sqNorm, vec3_sub_def],
    (C2_piston_lookat ⟨1, 0, 0⟩ ⟨5, 0, 0⟩ ⟨0, 0, 1⟩ 2 1).1
      (by norm_num [sqNorm, vec3_sub_def])⟩,
   ⟨by norm_num [sqNorm, vec3_sub_def],
    (C2_piston_lookat ⟨1, 0, 0⟩ ⟨1, 0, 0⟩ ⟨0, 0, 1⟩ 2 1).2
      (by norm_num [sqNorm, vec3_sub_def])⟩⟩

/-- C4 (code bug): re-running skeleton synthesis onto an existing
armature is *not* idempotent by bone name in the operative code.  The
second, operative definition of `create_bones_recursive` (modelled by
`create_bones_v2`) always calls `edit_bones.new`, so on an armature
that already contains a bone `"Body"` it creates a duplicate
`"Body.001"`; the shadowed first definition (modelled by
`create_bones_v1`, utils.py 706–711) implements exactly the claimed
lookup-and-reuse behavior. -/
theorem C4_rerun_duplicates_bones :
    create_bones_v2 2 [⟨"Body", "BodyObj", none, none, []⟩] ["Body"] =
      ["Body", "Body.001"] ∧
    create_bones_v1 2 [⟨"Body", "BodyObj", none, none, []⟩] ["Body"] = ["Body"] :=
  ⟨rfl, rfl⟩

/-- A Cyl-only entry of the piston dict contributes its
missing-Rod message to the reported errors. -/
theorem pistonErrors_mem_cyl (l : List PistonEntry) (pid : String)
    (hm : (⟨pid, true, false⟩ : PistonEntry) ∈ l) :
    msgMissingRod pid ∈ pistonErrors l := by
  induction l with
  | nil => cases hm
  | cons e rest ih =>
    rcases List.mem_cons.mp hm with he | hm'
    · subst he
      simp [pistonErrors]
    · simp only [pistonErrors]
      exact List.mem_append.mpr (Or.inr (ih hm'))

/-- A Rod-only entry of the piston dict contributes its
missing-Cyl message to the reported errors. -/
theorem pistonErrors_mem_rod (l : List PistonEntry) (pid : String)
    (hm : (⟨pid, false, true⟩ : PistonEntry) ∈ l) :
    msgMissingCyl pid ∈ pistonErrors l := by
  induction l with
  | nil => cases hm
  | cons e rest ih =>
    rcases List.mem_cons.mp hm with he | hm'
    · subst he
      simp [pistonErrors]
    · simp only [pistonErrors]
      exact List.mem_append.mpr (Or.inr (ih hm'))

/-- A successful `lookupPist` means the corresponding entry is in the
dict. -/
theorem lookupPist_mem (l : List PistonEntry) (pid : String) (hc hr : Bool)
    (h : lookupPist l pid = some (hc, hr)) : (⟨pid, hc, hr⟩ : PistonEntry) ∈ l := by
  unfold lookupPist at h
  cases hfind : l.find? (fun e => e.pid = pid) with
  | none => rw [hfind] at h; cases h
  | some e =>
    rw [hfind] at h
    have hpe : e.pid = pid := by
      have := List.find?_some hfind
      simpa using this
    have hmem : e ∈ l := List.mem_of_find?_eq_some hfind
    have hpair : (e.hasCyl, e.hasRod) = (hc, hr) := Option.some.inj h
    obtain ⟨h1, h2⟩ := Prod.ext_iff.mp hpair
    have : e = (⟨pid, hc, hr⟩ : PistonEntry) := by
      cases e
      simp_all
    rwa [this] at hmem

/-- C7 (corrected): an incomplete piston pair is reported by
`validate_selection` as an error, and — contrary to the claim — the
Build/Update Rig operator treats any validation error as fatal: it
cancels without synthesizing anything, so the present member is not
synthesized at all in that run. -/
theorem C7_incomplete_piston_fatal (S : List SceneObj) (hasOrigin : Bool)
    (pid : String) :
    (lookupPist (scanPistons S [] []) pid = some (true, false) →
      msgMissingRod pid ∈ validate_selection S hasOrigin ∧
      autoRigGate S hasOrigin = .cancelledValidation) ∧
    (lookupPist (scanPistons S [] []) pid = some (false, true) →
      msgMissingCyl pid ∈ validate_selection S hasOrigin ∧
      autoRigGate S hasOrigin = .cancelledValidation) := by
  have hSne : ∀ hc hr, lookupPist (scanPistons S [] []) pid = some (hc, hr) →
      S.isEmpty = false := by
    intro hc hr h
    cases S with
    | nil => simp [scanPistons, lookupPist, List.find?] at h
    | cons a t => rfl
  have main : ∀ (msg : String),
      msg ∈ pistonErrors (scanPistons S [] []) → S.isEmpty = false →
      msg ∈ validate_selection S hasOrigin ∧
      autoRigGate S hasOrigin = .cancelledValidation := by
    intro msg hmem hne
    have hval : msg ∈ validate_selection S hasOrigin := by
      unfold validate_selection
      rw [hne]
      simp only [Bool.false_eq_true, if_false]
      exact List.mem_append.mpr (Or.inr hmem)
    refine ⟨hval, ?_⟩
    unfold autoRigGate
    rw [hne]
    simp only [Bool.false_eq_true, if_false]
    rw [if_pos (List.ne_nil_of_mem hval)]
  constructor
  · intro h
    exact main _ (pistonErrors_mem_cyl _ _ (lookupPist_mem _ _ _ _ h))
      (hSne _ _ h)
  · intro h
    exact main _ (pistonErrors_mem_rod _ _ (lookupPist_mem _ _ _ _ h))
      (hSne _ _ h)

/-- Witness for C7 on a selection containing only a piston cylinder. -/
theorem C7_incomplete_piston_fatal_witness :
    lookupPist (scanPistons [⟨"CylObj", ["Piston_A_Cyl"], none⟩] [] []) "A" =
      some (true, false) ∧
    (msgMissingRod "A" ∈ validate_selection [⟨"CylObj", ["Piston_A_Cyl"], none⟩] true ∧
     autoRigGate [⟨"CylObj", ["Piston_A_Cyl"], none⟩] true = .cancelledValidation) :=
  ⟨rfl, (C7_incomplete_piston_fatal [⟨"CylObj", ["Piston_A_Cyl"], none⟩] true "A").1 rfl⟩

/-- C7 counterexample: with only `Piston_A_Cyl` selected, the claim's
"non-fatal, synthesis proceeds" behavior is refuted — the incomplete
pair yields a validation error and the Auto-Rig operator returns
`CANCELLED` before any synthesis. -/
theorem C7_counterexample :
    validate_selection [⟨"CylObj", ["Piston_A_Cyl"], none⟩] true =
      [msgMissingRod "A"] ∧
    autoRigGate [⟨"CylObj", ["Piston_A_Cyl"], none⟩] true =
      RigOutcome.cancelledValidation :=
  ⟨rfl, rfl⟩

/-- Updating a bone by name and then looking the same name up yields
the updated bone, provided the update preserves the name. -/
theorem lookupBone_updateBone_same (A : Armature) (nm : String) (f : PBone → PBone)
    (hpres : ∀ b, (f b).name = b.name) :
    lookupBone (updateBone A nm f) nm = (lookupBone A nm).map f := by
  induction A with
  | nil => rfl
  | cons b rest ih =>
    simp only [updateBone, List.map_cons, lookupBone] at *
    by_cases hb : b.name = nm
    · rw [if_pos hb,
        List.find?_cons_of_pos _ (by simp [hpres b, hb]),
        List.find?_cons_of_pos _ (by simp [hb])]
      simp
    · rw [if_neg hb,
        List.find?_cons_of_neg _ (by simp [hb]),
        List.find?_cons_of_neg _ (by simp [hb])]
      exact ih

/-- Updating one bone leaves lookups of other names unchanged,
provided the update preserves the name. -/
theorem lookupBone_updateBone_other (A : Armature) (nm nm' : String)
    (f : PBone → PBone) (h : nm' ≠ nm) (hpres : ∀ b, (f b).name = b.name) :
    lookupBone (updateBone A nm f) nm' = lookupBone A nm' := by
  induction A with
  | nil => rfl
  | cons b rest ih =>
    simp only [updateBone, List.map_cons, lookupBone] at *
    by_cases hb : b.name = nm
    · have hne : ¬ (f b).name = nm' := by
        rw [hpres b, hb]
        exact fun hc => h hc.symm
      have hne2 : ¬ b.name = nm' := by
        rw [hb]
        exact fun hc => h hc.symm
      rw [if_pos hb,
        List.find?_cons_of_neg _ (by simp [hne]),
        List.find?_cons_of_neg _ (by simp [hne2])]
      exact ih
    · rw [if_neg hb]
      by_cases hb' : b.name = nm'
      · rw [List.find?_cons_of_pos _ (by simp [hb']),
          List.find?_cons_of_pos _ (by simp [hb'])]
      · rw [List.find?_cons_of_neg _ (by simp [hb']),
          List.find?_cons_of_neg _ (by simp [hb'])]
        exact ih

/-- C3 counterexample: on an armature with a single bone `Arm`
flagged `use_ik` (chain length 2, no constraints), the control-rig
generator creates exactly one new bone, the hidden target `Arm_IK` —
not the claimed three-bone control/solver/pole apparatus. -/
theorem C3_counterexample :
    (apply_controls
      [⟨"Arm", none, ⟨0, 0, 0⟩, ⟨0, 2, 0⟩, true, 2, [], defaultIkFlags,
        true, false⟩]).map (fun b => b.name) = ["Arm", "Arm_IK"] := rfl

/-- C3 (amended): for every IK task whose owner exists and whose
target does not, the structural pass creates exactly one new bone —
the hidden, non-deforming IK target `<owner>_IK` — positioned at the
owner's tail, extended half the owner's length along the owner's
direction, and parented to the owner's parent.  No user-facing control
bone and no pole-vector bone are created. -/
theorem C3_single_ik_target (A : Armature) (t : IkTask) (ob : PBone)
    (h1 : lookupBone A t.owner = some ob)
    (h2 : lookupBone A t.target = none) :
    apply_controls_pass2 A [] [t] = A ++ [mkIkBone t.target ob] ∧
    (mkIkBone t.target ob).name = t.target ∧
    (mkIkBone t.target ob).head = ob.tail ∧
    (mkIkBone t.target ob).tail = ob.tail + ((1 : ℚ) / 2) • (ob.tail - ob.head) ∧
    (mkIkBone t.target ob).parent = ob.parent ∧
    (mkIkBone t.target ob).useDeform = false ∧
    (apply_controls_pass2 A [] [t]).length = A.length + 1 := by
  have hA1 : A.filter (fun b => !(([] : List String).contains b.name)) = A := by
    simp
  have hmain : apply_controls_pass2 A [] [t] = A ++ [mkIkBone t.target ob] := by
    simp only [apply_controls_pass2, List.foldl_cons, List.foldl_nil, hA1,
      h1, h2]
  refine ⟨hmain, rfl, rfl, rfl, rfl, rfl, ?_⟩
  rw [hmain]
  simp

/-- Witness for C3 (amended) on a one-bone armature. -/
theorem C3_single_ik_target_witness :
    lookupBone
        [⟨"Arm", none, ⟨0, 0, 0⟩, ⟨0, 2, 0⟩, true, 2, [], defaultIkFlags,
          true, false⟩] "Arm" =
      some ⟨"Arm", none, ⟨0, 0, 0⟩, ⟨0, 2, 0⟩, true, 2, [], defaultIkFlags,
        true, false⟩ ∧
    lookupBone
        [⟨"Arm", none, ⟨0, 0, 0⟩, ⟨0, 2, 0⟩, true, 2, [], defaultIkFlags,
          true, false⟩] "Arm_IK" = none ∧
    (apply_controls_pass2
        [⟨"Arm", none, ⟨0, 0, 0⟩, ⟨0, 2, 0⟩, true, 2, [], defaultIkFlags,
          true, false⟩] [] [⟨"Arm", "Arm_IK", 2⟩] =
      [⟨"Arm", none, ⟨0, 0, 0⟩, ⟨0, 2, 0⟩, true, 2, [], defaultIkFlags,
        true, false⟩] ++
        [mkIkBone "Arm_IK"
          ⟨"Arm", none, ⟨0, 0, 0⟩, ⟨0, 2, 0⟩, true, 2, [], defaultIkFlags,
            true, false⟩] ∧
      (mkIkBone "Arm_IK"
        ⟨"Arm", none, ⟨0, 0, 0⟩, ⟨0, 2, 0⟩, true, 2, [], defaultIkFlags,
          true, false⟩).name = "Arm_IK" ∧
      (mkIkBone "Arm_IK"
        ⟨"Arm", none, ⟨0, 0, 0⟩, ⟨0, 2, 0⟩, true, 2, [], defaultIkFlags,
          true, false⟩).head = ⟨0, 2, 0⟩ ∧
      (mkIkBone "Arm_IK"
        ⟨"Arm", none, ⟨0, 0, 0⟩, ⟨0, 2, 0⟩, true, 2, [], defaultIkFlags,
          true, false⟩).tail =
        (⟨0, 2, 0⟩ : Vec3) + ((1 : ℚ) / 2) • ((⟨0, 2, 0⟩ : Vec3) - ⟨0, 0, 0⟩) ∧
      (mkIkBone "Arm_IK"
        ⟨"Arm", none, ⟨0, 0, 0⟩, ⟨0, 2, 0⟩, true, 2, [], defaultIkFlags,
          true, false⟩).parent = none ∧
      (mkIkBone "Arm_IK"
        ⟨"Arm", none, ⟨0, 0, 0⟩, ⟨0, 2, 0⟩, true, 2, [], defaultIkFlags,
          true, false⟩).useDeform = false ∧
      (apply_controls_pass2
        [⟨"Arm", none, ⟨0, 0, 0⟩, ⟨0, 2, 0⟩, true, 2, [], defaultIkFlags,
          true, false⟩] [] [⟨"Arm", "Arm_IK", 2⟩]).length = 1 + 1) :=
  ⟨rfl, rfl,
   C3_single_ik_target
     [⟨"Arm", none, ⟨0, 0, 0⟩, ⟨0, 2, 0⟩, true, 2, [], defaultIkFlags,
       true, false⟩]
     ⟨"Arm", "Arm_IK", 2⟩
     ⟨"Arm", none, ⟨0, 0, 0⟩, ⟨0, 2, 0⟩, true, 2, [], defaultIkFlags,
       true, false⟩ rfl rfl⟩

/-- C8 counterexample: a root bone with requested chain length 5 has
available depth 1, yet the generator installs the IK constraint with
`chain_count = 5` (no clamping, and the code contains no
`DanglingChainError` reporting path at all). -/
theorem C8_counterexample :
    (lookupBone
        (apply_controls
          [⟨"Root", none, ⟨0, 0, 0⟩, ⟨0, 1, 0⟩, true, 5, [], defaultIkFlags,
            true, false⟩]) "Root").map (fun b => b.constraints) =
      some [PConstraint.ik "IK" 5] ∧
    availDepth
      [⟨"Root", none, ⟨0, 0, 0⟩, ⟨0, 1, 0⟩, true, 5, [], defaultIkFlags,
        true, false⟩] 1 "Root" = 1 :=
  ⟨rfl, rfl⟩

/-- C8 (amended): the generator installs the requested chain length
verbatim.  Creating a new IK constraint in pass 3 sets
`chain_count = chain_length` exactly, and updating an existing IK
constraint in pass 1 overwrites its count with the requested value —
in both paths without any comparison against the available ancestor
depth and without emitting any warning. -/
theorem C8_chain_length_verbatim (A : Armature) (t : IkTask) (ob tb : PBone)
    (h1 : lookupBone A t.owner = some ob)
    (h2 : lookupBone A t.target = some tb)
    (h3 : t.owner ≠ t.target) :
    lookupBone (apply_controls_pass3 A [] [t] []) t.owner =
      some { ob with constraints := ob.constraints ++ [.ik "IK" t.chainLen] } ∧
    (∀ (cn : String) (k n : ℕ) (rest : List PConstraint),
      setFirstChain (PConstraint.ik cn k :: rest) n =
        PConstraint.ik cn n :: rest) := by
  refine ⟨?_, fun cn k n rest => rfl⟩
  have hcond : ((lookupBone A t.owner).isSome &&
      (lookupBone A t.target).isSome) = true := by
    rw [h1, h2]
    rfl
  have hstep : apply_controls_pass3 A [] [t] [] =
      updateBone
        (updateBone A t.owner (fun b =>
          { b with constraints := b.constraints ++ [.ik "IK" t.chainLen] }))
        t.target (fun b => { b with hasIkFkProp := true }) := by
    simp only [apply_controls_pass3, applyIkLocks, List.foldl_cons,
      List.foldl_nil, hcond, if_true]
  rw [hstep,
    lookupBone_updateBone_other _ t.target t.owner
      (fun b => { b with hasIkFkProp := true }) h3 (fun b => rfl),
    lookupBone_updateBone_same A t.owner
      (fun b => { b with constraints := b.constraints ++ [.ik "IK" t.chainLen] })
      (fun b => rfl), h1]
  rfl

/-- Witness for C8 (amended): a root bone with an existing `_IK`
target and requested length 5 ends up with `chain_count = 5` even
though only one ancestor link exists. -/
theorem C8_chain_length_verbatim_witness :
    lookupBone
        [⟨"Root", none, ⟨0, 0, 0⟩, ⟨0, 1, 0⟩, true, 5, [], defaultIkFlags,
          true, false⟩,
         ⟨"Root_IK", none, ⟨0, 1, 0⟩, ⟨0, 2, 0⟩, false, 2, [], defaultIkFlags,
          false, false⟩] "Root" =
      some ⟨"Root", none, ⟨0, 0, 0⟩, ⟨0, 1, 0⟩, true, 5, [], defaultIkFlags,
        true, false⟩ ∧
    (lookupBone
        (apply_controls_pass3
          [⟨"Root", none, ⟨0, 0, 0⟩, ⟨0, 1, 0⟩, true, 5, [], defaultIkFlags,
            true, false⟩,
           ⟨"Root_IK", none, ⟨0, 1, 0⟩, ⟨0, 2, 0⟩, false, 2, [], defaultIkFlags,
            false, false⟩] [] [⟨"Root", "Root_IK", 5⟩] []) "Root" =
      some { (⟨"Root", none, ⟨0, 0, 0⟩, ⟨0, 1, 0⟩, true, 5, [], defaultIkFlags,
        true, false⟩ : PBone) with
          constraints := [] ++ [.ik "IK" 5] } ∧
      (∀ (cn : String) (k n : ℕ) (rest : List PConstraint),
        setFirstChain (PConstraint.ik cn k :: rest) n =
          PConstraint.ik cn n :: rest)) :=
  ⟨rfl,
   C8_chain_length_verbatim
     [⟨"Root", none, ⟨0, 0, 0⟩, ⟨0, 1, 0⟩, true, 5, [], defaultIkFlags,
       true, false⟩,
      ⟨"Root_IK", none, ⟨0, 1, 0⟩, ⟨0, 2, 0⟩, false, 2, [], defaultIkFlags,
       false, false⟩]
     ⟨"Root", "Root_IK", 5⟩
     ⟨"Root", none, ⟨0, 0, 0⟩, ⟨0, 1, 0⟩, true, 5, [], defaultIkFlags,
       true, false⟩
     ⟨"Root_IK", none, ⟨0, 1, 0⟩, ⟨0, 2, 0⟩, false, 2, [], defaultIkFlags,
       false, false⟩
     rfl rfl (by decide)⟩

/-- The lock-update pass applied to a bone: the final IK flags of bone
`bn` are obtained by folding exactly the lock records addressed to
`bn`, in their collection order, over the bone's prior flags. -/
theorem applyIkLocks_lookup (locks : List LockRec) (A' : Armature)
    (bn : String) (b : PBone) (h : lookupBone A' bn = some b) :
    lookupBone (applyIkLocks A' locks) bn =
      some { b with ik :=
        ((locks.filter (fun r => r.bone = bn)).foldl
          (fun f r => applyLockRec r.vals f) b.ik) } := by
  induction locks generalizing A' b with
  | nil => exact h
  | cons r rest ih =>
    by_cases hr : r.bone = bn
    · have hlk : lookupBone
          (updateBone A' r.bone (fun bb => { bb with ik := applyLockRec r.vals bb.ik }))
          bn = some { b with ik := applyLockRec r.vals b.ik } := by
        rw [← hr] at h ⊢
        rw [lookupBone_updateBone_same A' r.bone
          (fun bb => { bb with ik := applyLockRec r.vals bb.ik }) (fun bb => rfl), h]
        rfl
      have := ih _ _ hlk
      simp only [applyIkLocks, List.foldl_cons] at this ⊢
      rw [this]
      simp [List.filter_cons, hr]
    · have hlk : lookupBone
          (updateBone A' r.bone (fun bb => { bb with ik := applyLockRec r.vals bb.ik }))
          bn = some b := by
        rw [lookupBone_updateBone_other A' r.bone bn
          (fun bb => { bb with ik := applyLockRec r.vals bb.ik })
          (fun hc => hr hc.symm) (fun bb => rfl)]
        exact h
      have := ih _ _ hlk
      simp only [applyIkLocks, List.foldl_cons] at this ⊢
      rw [this]
      simp [List.filter_cons, hr]

/-- C6: rotation-limit propagation up the IK chain.  (1) The pipeline
runs as three passes, with the lock records computed by the pose-mode
analysis pass (pass 1, from the pre-edit armature) and applied only in
the dedicated pass after the edit pass created/removed all chain
bones.  (2) Each record stores plain copied values; per axis, a used
limit whose range collapses below the `0.001` threshold becomes a hard
IK lock, a used limit with a wider range becomes a soft IK limit with
that min/max, and an unused axis clears both.  (3) The final flags of
any bone are the fold of exactly its own records over its prior flags.
(4) The analysis walk emits one record per `LIMIT_ROTATION` constraint
per visited chain link. -/
theorem C6_limit_propagation (A : Armature) :
    (apply_controls A =
      apply_controls_pass3
        (apply_controls_pass2 (apply_controls_pass1 A).arm
          (apply_controls_pass1 A).cleanupBones (apply_controls_pass1 A).tasks)
        (apply_controls_pass1 A).cleanupCons (apply_controls_pass1 A).tasks
        (apply_controls_pass1 A).locks) ∧
    (∀ (v : LimitVals) (f : IkFlags),
      (v.useX = true → |v.maxX - v.minX| < 1 / 1000 →
        (applyLockRec v f).lockX = true) ∧
      (v.useX = true → ¬ |v.maxX - v.minX| < 1 / 1000 →
        (applyLockRec v f).useLimX = true ∧
        (applyLockRec v f).ikMinX = v.minX ∧
        (applyLockRec v f).ikMaxX = v.maxX) ∧
      (v.useX = false →
        (applyLockRec v f).lockX = false ∧ (applyLockRec v f).useLimX = false) ∧
      (v.useY = true → |v.maxY - v.minY| < 1 / 1000 →
        (applyLockRec v f).lockY = true) ∧
      (v.useY = true → ¬ |v.maxY - v.minY| < 1 / 1000 →
        (applyLockRec v f).useLimY = true ∧
        (applyLockRec v f).ikMinY = v.minY ∧
        (applyLockRec v f).ikMaxY = v.maxY) ∧
      (v.useY = false →
        (applyLockRec v f).lockY = false ∧ (applyLockRec v f).useLimY = false) ∧
      (v.useZ = true → |v.maxZ - v.minZ| < 1 / 1000 →
        (applyLockRec v f).lockZ = true) ∧
      (v.useZ = true → ¬ |v.maxZ - v.minZ| < 1 / 1000 →
        (applyLockRec v f).useLimZ = true ∧
        (applyLockRec v f).ikMinZ = v.minZ ∧
        (applyLockRec v f).ikMaxZ = v.maxZ) ∧
      (v.useZ = false →
        (applyLockRec v f).lockZ = false ∧ (applyLockRec v f).useLimZ = false)) ∧
    (∀ (locks : List LockRec) (A' : Armature) (bn : String) (b : PBone),
      lookupBone A' bn = some b →
      lookupBone (applyIkLocks A' locks) bn =
        some { b with ik :=
          ((locks.filter (fun r => r.bone = bn)).foldl
            (fun f r => applyLockRec r.vals f) b.ik) }) ∧
    (∀ (B : Armature) (nm : String) (k : ℕ) (b : PBone),
      lookupBone B nm = some b →
      collectChainLocks B (k + 1) nm =
        (b.constraints.filterMap (fun c =>
          match c with
          | .limitRot _ v => some ⟨nm, v⟩
          | _ => none)) ++
        (match b.parent with
         | some p => collectChainLocks B k p
         | none => [])) := by
  refine ⟨rfl, ?_, applyIkLocks_lookup, ?_⟩
  · intro v f
    refine ⟨?_, ?_, ?_, ?_, ?_, ?_, ?_, ?_, ?_⟩ <;> intro hu <;>
      first
        | (intro hlt
           rw [one_div] at hlt
           simp [applyLockRec, applyLockAxis, hu, hlt])
        | simp [applyLockRec, applyLockAxis, hu]
  · intro B nm k b hb
    simp only [collectChainLocks, hb]

/-- Witness for C6: a limit with collapsed X range, wide Y range and
unused Z produces a hard X lock, a soft Y limit with the copied
min/max, cleared Z flags, and the lock fold applies it to the bone it
names. -/
theorem C6_limit_propagation_witness :
    (⟨true, 5, 5, true, -1, 1, false, 2, 3⟩ : LimitVals).useX = true ∧
    |(⟨true, 5, 5, true, -1, 1, false, 2, 3⟩ : LimitVals).maxX -
      (⟨true, 5, 5, true, -1, 1, false, 2, 3⟩ : LimitVals).minX| < 1 / 1000 ∧
    ¬ |(⟨true, 5, 5, true, -1, 1, false, 2, 3⟩ : LimitVals).maxY -
      (⟨true, 5, 5, true, -1, 1, false, 2, 3⟩ : LimitVals).minY| < 1 / 1000 ∧
    ((applyLockRec ⟨true, 5, 5, true, -1, 1, false, 2, 3⟩ defaultIkFlags).lockX =
      true) ∧
    ((applyLockRec ⟨true, 5, 5, true, -1, 1, false, 2, 3⟩ defaultIkFlags).useLimY =
      true ∧
     (applyLockRec ⟨true, 5, 5, true, -1, 1, false, 2, 3⟩ defaultIkFlags).ikMinY =
      (⟨true, 5, 5, true, -1, 1, false, 2, 3⟩ : LimitVals).minY ∧
     (applyLockRec ⟨true, 5, 5, true, -1, 1, false, 2, 3⟩ defaultIkFlags).ikMaxY =
      (⟨true, 5, 5, true, -1, 1, false, 2, 3⟩ : LimitVals).maxY) ∧
    ((applyLockRec ⟨true, 5, 5, true, -1, 1, false, 2, 3⟩ defaultIkFlags).lockZ =
      false ∧
     (applyLockRec ⟨true, 5, 5, true, -1, 1, false, 2, 3⟩ defaultIkFlags).useLimZ =
      false) ∧
    lookupBone
        (applyIkLocks
          [⟨"B", none, ⟨0, 0, 0⟩, ⟨0, 1, 0⟩, false, 2, [], defaultIkFlags,
            true, false⟩]
          [⟨"B", ⟨true, 5, 5, true, -1, 1, false, 2, 3⟩⟩]) "B" =
      some { (⟨"B", none, ⟨0, 0, 0⟩, ⟨0, 1, 0⟩, false, 2, [], defaultIkFlags,
          true, false⟩ : PBone) with ik :=
        ((([⟨"B", ⟨true, 5, 5, true, -1, 1, false, 2, 3⟩⟩] : List LockRec).filter
            (fun r => r.bone = "B")).foldl
          (fun f r => applyLockRec r.vals f) defaultIkFlags) } :=
  ⟨rfl, by norm_num, by norm_num,
   ((C6_limit_propagation []).2.1 ⟨true, 5, 5, true, -1, 1, false, 2, 3⟩
     defaultIkFlags).1 rfl (by norm_num),
   ((C6_limit_propagation []).2.1 ⟨true, 5, 5, true, -1, 1, false, 2, 3⟩
     defaultIkFlags).2.2.2.2.1 rfl (by norm_num),
   ((C6_limit_propagation []).2.1 ⟨true, 5, 5, true, -1, 1, false, 2, 3⟩
     defaultIkFlags).2.2.2.2.2.2.2.2 rfl,
   (C6_limit_propagation []).2.2.1
     [⟨"B", ⟨true, 5, 5, true, -1, 1, false, 2, 3⟩⟩]
     [⟨"B", none, ⟨0, 0, 0⟩, ⟨0, 1, 0⟩, false, 2, [], defaultIkFlags,
       true, false⟩]
     "B"
     ⟨"B", none, ⟨0, 0, 0⟩, ⟨0, 1, 0⟩, false, 2, [], defaultIkFlags,
       true, false⟩ rfl⟩

/-- Truncation preserves the classifying collection. -/
theorem colOfD_trunc (o : SceneObj) : colOfD (truncObj o) = colOfD o := by
  cases h : o.collections <;> simp [colOfD, truncObj, h]

/-- Truncation preserves emptiness of the collection list. -/
theorem isEmpty_trunc (o : SceneObj) :
    (truncObj o).collections.isEmpty = o.collections.isEmpty := by
  cases h : o.collections <;> simp [truncObj, h]

/-- Truncation commutes with selecting the children of a node. -/
theorem childrenOf_trunc (S : List SceneObj) (o : SceneObj) :
    childrenOf (truncCols S) (truncObj o) = (childrenOf S o).map truncObj := by
  unfold childrenOf truncCols
  rw [List.filter_map]
  rfl

/-- The traversal ignores every collection except the first one:
running it on the truncated scene gives the same result. -/
theorem goObj_trunc (S : List SceneObj) :
    ∀ (F : ℕ) (o : SceneObj) (ctx : Option String) (hR : Bool),
      goObj (truncCols S) F (truncObj o) ctx hR = goObj S F o ctx hR := by
  intro F
  induction F with
  | zero => intro o ctx hR; rfl
  | succ F ih =>
    intro o ctx hR
    have hmap : ∀ (l : List SceneObj) (c' : Option String) (h' : Bool),
        (l.map truncObj).map (fun x => goObj (truncCols S) F x c' h') =
          l.map (fun x => goObj S F x c' h') := by
      intro l c' h'
      induction l with
      | nil => rfl
      | cons a t iht => simp only [List.map_cons, ih a, iht]
    rw [goObj_succ, goObj_succ, colOfD_trunc]
    by_cases hnew : isNewAt ctx (colOfD o) = true
    · rw [if_pos hnew, if_pos hnew]
      have : goForest (truncCols S) F (childrenOf (truncCols S) (truncObj o))
            (some (colOfD o)) (sContains (colOfD o) "_Mirrored") =
          goForest S F (childrenOf S o) (some (colOfD o))
            (sContains (colOfD o) "_Mirrored") := by
        rw [childrenOf_trunc]
        unfold goForest
        rw [hmap]
      rw [this]
      unfold buildNew
      rw [colOfD_trunc]
      rfl
    · rw [if_neg hnew, if_neg hnew]
      have : goForest (truncCols S) F (childrenOf (truncCols S) (truncObj o))
            ctx hR = goForest S F (childrenOf S o) ctx hR := by
        rw [childrenOf_trunc]
        unfold goForest
        rw [hmap]
      rw [this]
      rfl

/-- The missing-collection scan commutes with truncation. -/
theorem find?_isEmpty_trunc (S : List SceneObj) :
    (truncCols S).find? (fun o => o.collections.isEmpty) =
      (S.find? (fun o => o.collections.isEmpty)).map truncObj := by
  induction S with
  | nil => rfl
  | cons a t ih =>
    by_cases ha : a.collections.isEmpty = true
    · have h1 : List.find? (fun o => o.collections.isEmpty)
          (truncObj a :: truncCols t) = some (truncObj a) :=
        List.find?_cons_of_pos _
          (show (truncObj a).collections.isEmpty = true by
            rw [isEmpty_trunc]; exact ha)
      have h2 : List.find? (fun o => o.collections.isEmpty) (a :: t) = some a :=
        List.find?_cons_of_pos _ ha
      rw [show truncCols (a :: t) = truncObj a :: truncCols t from rfl, h1, h2]
      rfl
    · have h1 : List.find? (fun o => o.collections.isEmpty)
          (truncObj a :: truncCols t) =
          List.find? (fun o => o.collections.isEmpty) (truncCols t) :=
        List.find?_cons_of_neg _
          (show ¬ (truncObj a).collections.isEmpty = true by
            rw [isEmpty_trunc]; exact ha)
      have h2 : List.find? (fun o => o.collections.isEmpty) (a :: t) =
          List.find? (fun o => o.collections.isEmpty) t :=
        List.find?_cons_of_neg _ ha
      rw [show truncCols (a :: t) = truncObj a :: truncCols t from rfl, h1, h2]
      exact ih

/-- The piston scan of `validate_selection` also reads only the first
collection: truncation does not change it. -/
theorem scanPistons_trunc (S : List SceneObj) :
    ∀ (scanned : List String) (pist : List PistonEntry),
      scanPistons (truncCols S) scanned pist = scanPistons S scanned pist := by
  induction S with
  | nil => intro scanned pist; rfl
  | cons a t ih =>
    intro scanned pist
    have hhead : (truncObj a).collections.head? = a.collections.head? := by
      cases h : a.collections <;> simp [truncObj, h]
    rw [show truncCols (a :: t) = truncObj a :: truncCols t from rfl]
    unfold scanPistons
    rw [hhead]
    cases a.collections.head? with
    | none => exact ih scanned pist
    | some col =>
      by_cases hs : scanned.contains col = true
      · simp only [hs, if_true]
        exact ih scanned pist
      · simp only [hs, if_false, Bool.false_eq_true]
        cases pistonMatch (sReplace col "_Mirrored" "") with
        | none => exact ih _ _
        | some r => exact ih _ _

/-- C10: part-group classification reads only the first element of the
object's collection list.  (1) The analyzer's output is unchanged when
every object's collection list is truncated to its first element — an
object linked to several collections is classified solely by the first,
with no error or warning.  (2) The analyzer raises its
missing-group-membership error exactly when some object's collection
list is empty: the first such object (in selection order) produces the
error, and with no such object the only possible failure is the
no-root error.  (3) The validation entry point's piston scan likewise
depends only on each object's first collection. -/
theorem C10_first_collection (S : List SceneObj) :
    (analyze_hierarchy (truncCols S) = analyze_hierarchy S) ∧
    (∀ o : SceneObj, S.find? (fun x => x.collections.isEmpty) = some o →
      analyze_hierarchy S =
        .error ("Object \x27" ++ o.name ++
          "\x27 is not assigned to any Collection.")) ∧
    (hasEmptyCol S = false →
      ∀ m : String, analyze_hierarchy S = .error m →
        m = "Circular dependency or no root object found.") ∧
    (∀ (scanned : List String) (pist : List PistonEntry),
      scanPistons (truncCols S) scanned pist = scanPistons S scanned pist) := by
  refine ⟨?_, ?_, ?_, scanPistons_trunc S⟩
  · unfold analyze_hierarchy
    rw [find?_isEmpty_trunc]
    cases hf : S.find? (fun o => o.collections.isEmpty) with
    | some o => rfl
    | none =>
      simp only [Option.map_none]
      have hnames : (truncCols S).map (fun o => o.name) = S.map (fun o => o.name) := by
        unfold truncCols
        rw [List.map_map]
        rfl
      have hroots : (truncCols S).filter (fun o =>
            match o.parent with
            | none => true
            | some p => ! (S.map (fun x => x.name)).contains p) =
          (S.filter (fun o =>
            match o.parent with
            | none => true
            | some p => ! (S.map (fun x => x.name)).contains p)).map truncObj := by
        unfold truncCols
        rw [List.filter_map]
        rfl
      rw [hnames, hroots]
      have hempty : ((S.filter (fun o =>
            match o.parent with
            | none => true
            | some p => ! (S.map (fun x => x.name)).contains p)).map truncObj).isEmpty =
          (S.filter (fun o =>
            match o.parent with
            | none => true
            | some p => ! (S.map (fun x => x.name)).contains p)).isEmpty := by
        cases S.filter (fun o =>
            match o.parent with
            | none => true
            | some p => ! (S.map (fun x => x.name)).contains p) <;> rfl
      rw [hempty]
      by_cases hr : (S.filter (fun o =>
          match o.parent with
          | none => true
          | some p => ! (S.map (fun x => x.name)).contains p)).isEmpty = true
      · rw [if_pos hr, if_pos hr]
        rfl
      · rw [if_neg hr, if_neg hr]
        have hlen : (truncCols S).length = S.length := by
          unfold truncCols
          rw [List.length_map]
        have hfor : ∀ (l : List SceneObj),
            goForest (truncCols S) (S.length + 1) (l.map truncObj) none false =
              goForest S (S.length + 1) l none false := by
          intro l
          unfold goForest
          congr 1
          induction l with
          | nil => rfl
          | cons a t iht => simp only [List.map_cons, goObj_trunc S, iht]
        rw [hlen, hfor]
        rfl
  · intro o hfind
    unfold analyze_hierarchy
    rw [hfind]
  · intro hne m herr
    have hfind : S.find? (fun o => o.collections.isEmpty) = none := by
      unfold hasEmptyCol at hne
      rw [List.find?_eq_none]
      intro x hx
      have hall := List.any_eq_false.mp hne
      simpa using hall x hx
    unfold analyze_hierarchy at herr
    rw [hfind] at herr
    by_cases hr : (S.filter (fun o =>
        match o.parent with
        | none => true
        | some p => ! (S.map (fun x => x.name)).contains p)).isEmpty = true
    · rw [if_pos hr] at herr
      exact (Except.error.inj herr).symm
    · rw [if_neg hr] at herr
      cases herr

/-- Witness for C10 on a two-collection object next to a piston
entry. -/
theorem C10_first_collection_witness :
    ((⟨"A", ["Body", "Extra"], none⟩ : SceneObj) :: []).find?
        (fun x => x.collections.isEmpty) = none ∧
    hasEmptyCol [⟨"A", ["Body", "Extra"], none⟩] = false ∧
    (analyze_hierarchy (truncCols [⟨"A", ["Body", "Extra"], none⟩]) =
      analyze_hierarchy [⟨"A", ["Body", "Extra"], none⟩] ∧
     (∀ m : String,
        analyze_hierarchy [⟨"A", ["Body", "Extra"], none⟩] = .error m →
        m = "Circular dependency or no root object found.") ∧
     scanPistons (truncCols [⟨"A", ["Body", "Extra"], none⟩]) [] [] =
       scanPistons [⟨"A", ["Body", "Extra"], none⟩] [] []) :=
  ⟨rfl, rfl,
   (C10_first_collection [⟨"A", ["Body", "Extra"], none⟩]).1,
   (C10_first_collection [⟨"A", ["Body", "Extra"], none⟩]).2.2.1 rfl,
   (C10_first_collection [⟨"A", ["Body", "Extra"], none⟩]).2.2.2 [] []⟩

/-- The `addL` of a fold of contributions is the concatenation of the
parts. -/
theorem foldl_combineE_addL (es : List Effect) (e0 : Effect) :
    (es.foldl combineE e0).addL =
      e0.addL ++ (es.map Effect.addL).flatten := by
  induction es generalizing e0 with
  | nil => simp
  | cons e t ih =>
    simp only [List.foldl_cons, List.map_cons, List.flatten_cons, ih,
      combineE, List.append_assoc]

/-- The `addR` of a fold of contributions is the concatenation of the
parts. -/
theorem foldl_combineE_addR (es : List Effect) (e0 : Effect) :
    (es.foldl combineE e0).addR =
      e0.addR ++ (es.map Effect.addR).flatten := by
  induction es generalizing e0 with
  | nil => simp
  | cons e t ih =>
    simp only [List.foldl_cons, List.map_cons, List.flatten_cons, ih,
      combineE, List.append_assoc]

/-- Folding contributions preserves the pointwise shape relation
between the Left and Right attachment lists. -/
theorem foldl_combineE_shape (es : List Effect) (e0 : Effect)
    (h0 : List.Forall₂ SameShape e0.addL e0.addR)
    (hes : ∀ e ∈ es, List.Forall₂ SameShape e.addL e.addR) :
    List.Forall₂ SameShape (es.foldl combineE e0).addL
      (es.foldl combineE e0).addR := by
  induction es generalizing e0 with
  | nil => exact h0
  | cons e t ih =>
    simp only [List.foldl_cons]
    exact ih (combineE e0 e)
      (List.rel_append h0 (hes e (List.mem_cons_self e t)))
      (fun x hx => hes x (List.mem_cons_of_mem e hx))

/-- Under the all-mirrored condition, the traversal of an object under
a two-sided context contributes Left and Right bone lists of equal
shape. -/
theorem goObj_shape (S : List SceneObj) :
    ∀ (F : ℕ) (o : SceneObj) (c : String), okObjF S F o c = true →
      List.Forall₂ SameShape (goObj S F o (some c) true).addL
        (goObj S F o (some c) true).addR := by
  intro F
  induction F with
  | zero => intro o c _; exact List.Forall₂.nil
  | succ F ih =>
    intro o c hok
    by_cases hcol : colOfD o = c
    · have hnew : isNewAt (some c) (colOfD o) = false := by
        simp [isNewAt, hcol]
      rw [goObj_succ, hnew]
      simp only [Bool.false_eq_true, if_false]
      have hok' : (childrenOf S o).all (fun ch => okObjF S F ch c) = true := by
        unfold okObjF at hok
        rwa [if_pos hcol] at hok
      unfold goForest
      apply foldl_combineE_shape
      · exact List.Forall₂.nil
      · intro e he
        rcases List.mem_map.mp he with ⟨ch, hch, rfl⟩
        exact ih ch c (List.all_eq_true.mp hok' ch hch)
    · have hnew : isNewAt (some c) (colOfD o) = true := by
        simp [isNewAt]
        exact fun hc => hcol hc.symm
      rw [goObj_succ, hnew]
      simp only [if_true]
      have hok2 := hok
      unfold okObjF at hok2
      rw [if_neg hcol] at hok2
      have hok3 : sContains (colOfD o) "_Mirrored" = true ∧
          (childrenOf S o).all (fun ch => okObjF S F ch (colOfD o)) = true := by
        simpa using hok2
      obtain ⟨hmir, hall⟩ := hok3
      have hch : List.Forall₂ SameShape
          (goForest S F (childrenOf S o) (some (colOfD o))
            (sContains (colOfD o) "_Mirrored")).addL
          (goForest S F (childrenOf S o) (some (colOfD o))
            (sContains (colOfD o) "_Mirrored")).addR := by
        rw [hmir]
        unfold goForest
        apply foldl_combineE_shape
        · exact List.Forall₂.nil
        · intro e he
          rcases List.mem_map.mp he with ⟨ch, hc2, rfl⟩
          exact ih ch (colOfD o) (List.all_eq_true.mp hall ch hc2)
      unfold buildNew
      rw [if_pos hmir]
      simp only [if_true]
      exact List.Forall₂.cons (SameShape.mk hch) List.Forall₂.nil

/-- Forest version of `goObj_shape`. -/
theorem goForest_shape (S : List SceneObj) (F : ℕ) (l : List SceneObj)
    (c : String) (h : l.all (fun ch => okObjF S F ch c) = true) :
    List.Forall₂ SameShape (goForest S F l (some c) true).addL
      (goForest S F l (some c) true).addR := by
  unfold goForest
  apply foldl_combineE_shape
  · exact List.Forall₂.nil
  · intro e he
    rcases List.mem_map.mp he with ⟨ch, hch, rfl⟩
    exact goObj_shape S F ch c (List.all_eq_true.mp h ch hch)

/-- C1 counterexample: for the selection `{A in Body_Mirrored,
B in Arm (child of A)}` the analyzer emits the pair `Body_L`/`Body_R`,
but `Body_L` has one child and `Body_R` has none — the Left and Right
subtrees do not have identical shape, refuting the claim's
same-children-count clause (the non-mirrored child attaches only under
the Left node). -/
theorem C1_counterexample :
    (analyze_hierarchy
      [⟨"A", ["Body_Mirrored"], none⟩, ⟨"B", ["Arm"], some "A"⟩]).map
        (fun l => l.map (fun t => (t.name, t.children.length))) =
      .ok [("Body_L", 1), ("Body_R", 0)] := rfl

/-- C1 (amended): a selected node whose part group carries the mirror
marker and that starts a new bone yields exactly two Bone Nodes named
`<base>_L` / `<base>_R`, with sides Left/Right, linked by the sibling
reference, sharing one representative, attached under the
corresponding parent context — or both under the Left context (or the
root list) when no Right context exists; a non-mirrored group creates
a single side-`None` node.  The Left and Right subtrees have identical
shape provided every descendant group that starts a new bone is itself
mirrored (`okObjF` on the children); without that proviso a
non-mirrored child attaches only under the Left node. -/
theorem C1_mirror_pair (S : List SceneObj) (F : ℕ) (o : SceneObj)
    (ctx : Option String) (hR : Bool)
    (hnew : isNewAt ctx (colOfD o) = true) :
    (sContains (colOfD o) "_Mirrored" = true →
      goObj S (F + 1) o ctx hR =
        (if hR then Effect.mk none [(pairAt S F o).1] [(pairAt S F o).2]
         else Effect.mk none [(pairAt S F o).1, (pairAt S F o).2] []) ∧
      (pairAt S F o).1.name = sReplace (colOfD o) "_Mirrored" "" ++ "_L" ∧
      (pairAt S F o).2.name = sReplace (colOfD o) "_Mirrored" "" ++ "_R" ∧
      (pairAt S F o).1.side = some Side.L ∧
      (pairAt S F o).2.side = some Side.R ∧
      (pairAt S F o).1.siblingR = some ((pairAt S F o).2.name) ∧
      (pairAt S F o).1.origin = (pairAt S F o).2.origin ∧
      ((childrenOf S o).all (fun ch => okObjF S F ch (colOfD o)) = true →
        SameShape (pairAt S F o).1 (pairAt S F o).2)) ∧
    (sContains (colOfD o) "_Mirrored" = false →
      goObj S (F + 1) o ctx hR =
        Effect.mk none
          [⟨sReplace (colOfD o) "_Mirrored" "",
            (goForest S F (childrenOf S o) (some (colOfD o))
              false).originOv.getD o.name,
            none, none,
            (goForest S F (childrenOf S o) (some (colOfD o)) false).addL⟩]
          []) := by
  constructor
  · intro hmir
    refine ⟨?_, rfl, rfl, rfl, rfl, rfl, rfl, ?_⟩
    · rw [goObj_succ, if_pos hnew]
      unfold buildNew
      rw [if_pos hmir, hmir]
      rfl
    · intro hall
      exact SameShape.mk (goForest_shape S F (childrenOf S o) (colOfD o) hall)
  · intro hmir
    rw [goObj_succ, if_pos hnew]
    unfold buildNew
    rw [if_neg (show ¬ sContains (colOfD o) "_Mirrored" = true by
      simp [hmir]), hmir]

/-- Witness for C1 on a root object in a mirrored collection with one
mirrored child, and on a root object in a plain collection. -/
theorem C1_mirror_pair_witness :
    isNewAt none
        (colOfD (⟨"A", ["Leg_Mirrored"], none⟩ : SceneObj)) = true ∧
    sContains (colOfD (⟨"A", ["Leg_Mirrored"], none⟩ : SceneObj))
      "_Mirrored" = true ∧
    (childrenOf [⟨"A", ["Leg_Mirrored"], none⟩]
        (⟨"A", ["Leg_Mirrored"], none⟩ : SceneObj)).all
      (fun ch => okObjF [⟨"A", ["Leg_Mirrored"], none⟩] 1 ch
        (colOfD (⟨"A", ["Leg_Mirrored"], none⟩ : SceneObj))) = true ∧
    (goObj [⟨"A", ["Leg_Mirrored"], none⟩] 2 ⟨"A", ["Leg_Mirrored"], none⟩
        none false =
      Effect.mk none
        [(pairAt [⟨"A", ["Leg_Mirrored"], none⟩] 1
            ⟨"A", ["Leg_Mirrored"], none⟩).1,
         (pairAt [⟨"A", ["Leg_Mirrored"], none⟩] 1
            ⟨"A", ["Leg_Mirrored"], none⟩).2] []) ∧
    SameShape
      (pairAt [⟨"A", ["Leg_Mirrored"], none⟩] 1
        ⟨"A", ["Leg_Mirrored"], none⟩).1
      (pairAt [⟨"A", ["Leg_Mirrored"], none⟩] 1
        ⟨"A", ["Leg_Mirrored"], none⟩).2 ∧
    goObj [⟨"C", ["Body"], none⟩] 2 ⟨"C", ["Body"], none⟩ none false =
      Effect.mk none
        [⟨sReplace (colOfD (⟨"C", ["Body"], none⟩ : SceneObj)) "_Mirrored" "",
          (goForest [⟨"C", ["Body"], none⟩] 1
            (childrenOf [⟨"C", ["Body"], none⟩] ⟨"C", ["Body"], none⟩)
            (some (colOfD (⟨"C", ["Body"], none⟩ : SceneObj)))
            false).originOv.getD "C",
          none, none,
          (goForest [⟨"C", ["Body"], none⟩] 1
            (childrenOf [⟨"C", ["Body"], none⟩] ⟨"C", ["Body"], none⟩)
            (some (colOfD (⟨"C", ["Body"], none⟩ : SceneObj))) false).addL⟩]
        [] :=
  ⟨rfl, rfl, rfl,
   (((C1_mirror_pair [⟨"A", ["Leg_Mirrored"], none⟩] 1
      ⟨"A", ["Leg_Mirrored"], none⟩ none false rfl).1 rfl).1),
   ((((C1_mirror_pair [⟨"A", ["Leg_Mirrored"], none⟩] 1
      ⟨"A", ["Leg_Mirrored"], none⟩ none false rfl).1 rfl).2.2.2.2.2.2.2) rfl),
   ((C1_mirror_pair [⟨"C", ["Body"], none⟩] 1 ⟨"C", ["Body"], none⟩
      none false rfl).2 rfl)⟩

/-- Cons form of `getLast?`, phrased through `Option.or`. -/
theorem getLast?_cons_or {α : Type} :
    ∀ (l : List α) (a : α), (a :: l).getLast? = l.getLast?.or (some a) := by
  intro l
  induction l with
  | nil => intro a; rfl
  | cons b t ih =>
    intro a
    rw [List.getLast?_cons_cons, ih b, Option.or_assoc]
    congr 1

/-- Append form of `getLast?`, phrased through `Option.or`. -/
theorem getLast?_append_or {α : Type} :
    ∀ (l1 l2 : List α), (l1 ++ l2).getLast? = l2.getLast?.or l1.getLast? := by
  intro l1 l2
  induction l1 with
  | nil => simp
  | cons a t ih =>
    rw [List.cons_append, getLast?_cons_or, ih, Option.or_assoc,
      getLast?_cons_or]

/-- Over an append, the later block of `lastHinge` wins. -/
theorem lastHinge_append (l1 l2 : List String) :
    lastHinge (l1 ++ l2) = (lastHinge l2).or (lastHinge l1) := by
  unfold lastHinge
  rw [List.filter_append, getLast?_append_or]

/-- Over a cons of `lastHinge`, later entries win over the head. -/
theorem lastHinge_cons (a : String) (l : List String) :
    lastHinge (a :: l) =
      (lastHinge l).or (if sStarts a "Hinge_" then some a else none) := by
  unfold lastHinge
  rw [List.filter_cons]
  by_cases ha : sStarts a "Hinge_" = true
  · rw [if_pos ha, if_pos ha, getLast?_cons_or]
  · rw [if_neg ha, if_neg ha, Option.or_none]

/-- Unfolding equation for `regionNames` at positive fuel. -/
theorem regionNames_succ (S : List SceneObj) (F : ℕ) (o : SceneObj) (c : String) :
    regionNames S (F + 1) o c =
      if colOfD o = c then
        o.name :: ((childrenOf S o).map (fun ch => regionNames S F ch c)).flatten
      else [] := rfl

/-- A new-bone construction never leaks a pivot override to the
enclosing context. -/
theorem buildNew_originOv (o : SceneObj) (hR : Bool) (e : Effect) :
    (buildNew o hR e).originOv = none := by
  unfold buildNew
  by_cases hm : sContains (colOfD o) "_Mirrored" = true
  · rw [if_pos hm]
    cases hR <;> rfl
  · rw [if_neg hm]

/-- The pending override of a fold of contributions: the last
subtree's override wins. -/
theorem foldl_combineE_originOv (es : List Effect) (e0 : Effect) :
    (es.foldl combineE e0).originOv =
      es.foldl (fun a e => e.originOv.or a) e0.originOv := by
  induction es generalizing e0 with
  | nil => rfl
  | cons e t ih => simp only [List.foldl_cons, ih, combineE]

/-- Folding the traversal contributions of a sibling list accumulates
exactly the last `Hinge_` override of the concatenated regions. -/
theorem foldl_or_lastHinge (S : List SceneObj) (F : ℕ) (c : String) (hR : Bool)
    (ihp : ∀ o : SceneObj,
      (goObj S F o (some c) hR).originOv = lastHinge (regionNames S F o c)) :
    ∀ (l : List SceneObj) (acc : Option String),
      (l.map (fun o => goObj S F o (some c) hR)).foldl
          (fun a e => e.originOv.or a) acc =
        (lastHinge ((l.map (fun ch => regionNames S F ch c)).flatten)).or acc := by
  intro l
  induction l with
  | nil =>
    intro acc
    simp [lastHinge]
  | cons ch t iht =>
    intro acc
    simp only [List.map_cons, List.foldl_cons, List.flatten_cons]
    rw [ihp ch, iht, lastHinge_append, Option.or_assoc]

/-- The pivot override in force after traversing `o` under the bone
context of collection `c` is the last `Hinge_`-named object of the
same-collection region, in depth-first order. -/
theorem goObj_originOv (S : List SceneObj) :
    ∀ (F : ℕ) (o : SceneObj) (c : String) (hR : Bool),
      (goObj S F o (some c) hR).originOv = lastHinge (regionNames S F o c) := by
  intro F
  induction F with
  | zero => intro o c hR; rfl
  | succ F ih =>
    intro o c hR
    by_cases hcol : colOfD o = c
    · have hnew : isNewAt (some c) (colOfD o) = false := by
        simp [isNewAt, hcol]
      rw [goObj_succ, hnew]
      simp only [Bool.false_eq_true, if_false]
      show ((goForest S F (childrenOf S o) (some c) hR).originOv.or
        (if sStarts o.name "Hinge_" then some o.name else none)) = _
      rw [regionNames_succ, if_pos hcol, lastHinge_cons]
      congr 1
      unfold goForest
      rw [foldl_combineE_originOv]
      rw [foldl_or_lastHinge S F c hR (fun x => ih x c hR)]
      exact Option.or_none
    · have hnew : isNewAt (some c) (colOfD o) = true := by
        simp [isNewAt]
        exact fun hc => hcol hc.symm
      rw [goObj_succ, hnew]
      simp only [if_true]
      rw [buildNew_originOv, regionNames_succ, if_neg hcol]
      rfl

/-- C9: a selected node whose part group equals the parent context's
group folds into the context bone — its traversal contributes exactly
its children's bone nodes and no node of its own — and the
representative override is the last `Hinge_`-prefixed object visited
(in depth-first order) in the same-group region; when the context is a
mirrored pair, both the Left and Right bone carry the same (shared)
representative. -/
theorem C9_fold_and_pivot_override (S : List SceneObj) (F : ℕ) (o : SceneObj)
    (c : String) (hR : Bool) (hcol : colOfD o = c) :
    ((goObj S (F + 1) o (some c) hR).addL =
        (goForest S F (childrenOf S o) (some c) hR).addL ∧
     (goObj S (F + 1) o (some c) hR).addR =
        (goForest S F (childrenOf S o) (some c) hR).addR) ∧
    (goObj S (F + 1) o (some c) hR).originOv =
      lastHinge (regionNames S (F + 1) o c) ∧
    regionNames S (F + 1) o c =
      o.name :: ((childrenOf S o).map (fun ch => regionNames S F ch c)).flatten ∧
    (∀ (base orig : String) (e : Effect),
      (mirrorPair base orig e).1.origin = orig ∧
      (mirrorPair base orig e).2.origin = orig) := by
  have hnew : isNewAt (some c) (colOfD o) = false := by
    simp [isNewAt, hcol]
  refine ⟨⟨?_, ?_⟩, goObj_originOv S (F + 1) o c hR, ?_, fun base orig e => ⟨rfl, rfl⟩⟩
  · rw [goObj_succ, hnew]
    simp only [Bool.false_eq_true, if_false]
    rfl
  · rw [goObj_succ, hnew]
    simp only [Bool.false_eq_true, if_false]
    rfl
  · rw [regionNames_succ, if_pos hcol]

/-- Witness for C9 on a two-object scene whose second object is a
`Hinge_` pivot in the same collection as its parent. -/
theorem C9_fold_and_pivot_override_witness :
    colOfD (⟨"Hinge_Knee", ["Leg"], some "Base"⟩ : SceneObj) = "Leg" ∧
    (((goObj [⟨"Base", ["Leg"], none⟩, ⟨"Hinge_Knee", ["Leg"], some "Base"⟩] 2
          ⟨"Hinge_Knee", ["Leg"], some "Base"⟩ (some "Leg") false).addL =
        (goForest [⟨"Base", ["Leg"], none⟩, ⟨"Hinge_Knee", ["Leg"], some "Base"⟩] 1
          (childrenOf [⟨"Base", ["Leg"], none⟩, ⟨"Hinge_Knee", ["Leg"], some "Base"⟩]
            ⟨"Hinge_Knee", ["Leg"], some "Base"⟩) (some "Leg") false).addL ∧
      (goObj [⟨"Base", ["Leg"], none⟩, ⟨"Hinge_Knee", ["Leg"], some "Base"⟩] 2
          ⟨"Hinge_Knee", ["Leg"], some "Base"⟩ (some "Leg") false).addR =
        (goForest [⟨"Base", ["Leg"], none⟩, ⟨"Hinge_Knee", ["Leg"], some "Base"⟩] 1
          (childrenOf [⟨"Base", ["Leg"], none⟩, ⟨"Hinge_Knee", ["Leg"], some "Base"⟩]
            ⟨"Hinge_Knee", ["Leg"], some "Base"⟩) (some "Leg") false).addR) ∧
     (goObj [⟨"Base", ["Leg"], none⟩, ⟨"Hinge_Knee", ["Leg"], some "Base"⟩] 2
        ⟨"Hinge_Knee", ["Leg"], some "Base"⟩ (some "Leg") false).originOv =
      lastHinge (regionNames
        [⟨"Base", ["Leg"], none⟩, ⟨"Hinge_Knee", ["Leg"], some "Base"⟩] 2
        ⟨"Hinge_Knee", ["Leg"], some "Base"⟩ "Leg") ∧
     regionNames [⟨"Base", ["Leg"], none⟩, ⟨"Hinge_Knee", ["Leg"], some "Base"⟩] 2
        ⟨"Hinge_Knee", ["Leg"], some "Base"⟩ "Leg" =
      "Hinge_Knee" ::
        ((childrenOf [⟨"Base", ["Leg"], none⟩, ⟨"Hinge_Knee", ["Leg"], some "Base"⟩]
            ⟨"Hinge_Knee", ["Leg"], some "Base"⟩).map
          (fun ch => regionNames
            [⟨"Base", ["Leg"], none⟩, ⟨"Hinge_Knee", ["Leg"], some "Base"⟩] 1
            ch "Leg")).flatten ∧
     (∀ (base orig : String) (e : Effect),
        (mirrorPair base orig e).1.origin = orig ∧
        (mirrorPair base orig e).2.origin = orig)) :=
  ⟨rfl,
   C9_fold_and_pivot_override
     [⟨"Base", ["Leg"], none⟩, ⟨"Hinge_Knee", ["Leg"], some "Base"⟩] 1
     ⟨"Hinge_Knee", ["Leg"], some "Base"⟩ "Leg" false rfl⟩

end MechRig
